import Mathlib

/-!
Verification development for the `stats` library (dice notation parser /
roller and stat block engine).

The definitions below are a shallow embedding of the TypeScript source:
JS numbers are modelled as exact rationals (`ℚ`), JS `Map`s as association
lists keyed by `String`, thrown exceptions as `Except`, and the injected
random source as a function `ℕ → ℚ` of pre-determined uniform draws.

Stat block engine: embedded from `createStatBlock` (function `ce` in the
bundled module, identical to `createStatBlock` in `stat-block.ts` except
that the bundled `fromJSON` restore additionally skips
`__proto__`/`constructor`/`prototype` keys; the bundle is embedded, as it
is the built artifact).  Event listeners are modelled by returning the
list of change events an operation fires; derived-stat formulas (arbitrary
closures) are not representable as store fields, so the store carries only
the `isDerived` flag — all theorems about effective values concern
non-derived stats, for which `calculateEffectiveValue` takes the
base+modifiers path exactly as in the source.
-/

namespace Stats

/-- Modifier kind: `"flat" | "multiply"`. -/
inductive ModType where
  | flat
  | multiply
deriving DecidableEq, Repr

/-- A JS `number | Infinity` as used for (remaining) durations:
`inf` models `Infinity` (and the serialized keyword `"permanent"`). -/
inductive Dur where
  | inf
  | fin (n : ℚ)
deriving DecidableEq, Repr

/-- The `duration` field of an `addModifier` input:
absent, the keyword `"permanent"`, the keyword `"temporary"`, or an
explicit numeric tick count. -/
inductive DurationInput where
  | omitted
  | permanent
  | temporary
  | ticks (n : ℚ)
deriving DecidableEq, Repr

/-- Internal modifier record kept in a stat entry. -/
structure InternalModifier where
  value : ℚ
  source : String
  type : ModType
  duration : Dur
  remainingDuration : Dur
deriving DecidableEq, Repr

/-- The modifier object passed to `addModifier`. -/
structure ModifierInput where
  value : ℚ
  source : String
  type : Option ModType
  duration : DurationInput
deriving DecidableEq, Repr

/-- Internal per-stat entry (`StatData` in the source).  The
`derivedFormula` closure of the source is not representable as data;
only the `isDerived` flag is kept (see module docstring). -/
structure StatData where
  base : ℚ
  min : Option ℚ := none
  max : Option ℚ := none
  modifiers : List InternalModifier := []
  isDerived : Bool := false
deriving DecidableEq, Repr

/-- The stat store: a JS `Map` from names to entries, as an assoc list. -/
structure Store where
  stats : List (String × StatData)
deriving DecidableEq, Repr

/-- One stat definition passed to `createStatBlock`. -/
structure StatDefinition where
  base : ℚ
  min : Option ℚ := none
  max : Option ℚ := none
deriving DecidableEq, Repr

/-- A change event as delivered to `onChange`/`onStat` listeners. -/
structure ChangeEvent where
  stat : String
  oldValue : ℚ
  newValue : ℚ
  baseChanged : Bool
  modifiersChanged : Bool
deriving DecidableEq, Repr

/-- Error taxonomy (`ValidationError`, `VersionError`, plain `TypeError`,
`ParseError`, `CircularDependencyError`). -/
inductive StatsError where
  | validationError (msg : String)
  | versionError (msg : String) (version : ℚ)
  | typeError (msg : String)
  | parseError (msg : String) (rawNotation : String)
  | circularDependencyError (msg : String) (cycle : List String)
deriving DecidableEq, Repr

/-- `clampValue`: clamp into optional `[min, max]` bounds
(`Math.max` with min first, then `Math.min` with max). -/
def clampValue (v : ℚ) (lo hi : Option ℚ) : ℚ :=
  let v1 := match lo with
    | none => v
    | some l => max v l
  match hi with
  | none => v1
  | some h => min v1 h

/-- `Map.get` on a raw entry list: first entry with the given key. -/
def findVal (l : List (String × StatData)) (n : String) : Option StatData :=
  (l.find? (fun p => p.1 == n)).map (fun p => p.2)

/-- `Map.get`: first entry with the given key. -/
def lookupStat (s : Store) (n : String) : Option StatData :=
  findVal s.stats n

/-- Mutating an entry in place: replace the value at key `n`. -/
def updateStat (s : Store) (n : String) (d : StatData) : Store :=
  ⟨s.stats.map (fun p => if p.1 == n then (n, d) else p)⟩

/-- `Map.set`: replace in place if the key exists, else append. -/
def mapSet (l : List (String × StatData)) (k : String) (v : StatData) :
    List (String × StatData) :=
  if l.any (fun p => p.1 == k) then l.map (fun p => if p.1 == k then (k, v) else p)
  else l ++ [(k, v)]

/-- The flat-then-multiply pipeline of `calculateEffectiveValue` for a
non-derived entry: sum all flat modifiers onto the base, then multiply by
each multiply modifier sequentially, in list (= insertion) order. -/
def pipelineValue (base : ℚ) (mods : List InternalModifier) : ℚ :=
  let afterFlat := (mods.filter (fun m => m.type == ModType.flat)).foldl
    (fun v m => v + m.value) base
  (mods.filter (fun m => m.type == ModType.multiply)).foldl
    (fun v m => v * m.value) afterFlat

/-- Effective value of a single entry (the non-derived path of
`calculateEffectiveValue`; an entry whose `derivedFormula` is absent also
takes this path in the source). -/
def effEntry (d : StatData) : ℚ :=
  pipelineValue d.base d.modifiers

/-- `calculateEffectiveValue`: `0` for an absent stat. -/
def calcEffective (s : Store) (n : String) : ℚ :=
  match lookupStat s n with
  | none => 0
  | some d => effEntry d

/-- `captureDerivedStatValues`: snapshot of all derived stats' values. -/
def captureDerived (s : Store) : List (String × ℚ) :=
  (s.stats.filter (fun p => p.2.isDerived)).map (fun p => (p.1, calcEffective s p.1))

/-- `fireDerivedStatEvents`: one event per derived stat whose value
changed relative to the snapshot. -/
def derivedEvents (old : List (String × ℚ)) (s : Store) : List ChangeEvent :=
  old.filterMap (fun p =>
    let newV := calcEffective s p.1
    if p.2 ≠ newV then some ⟨p.1, p.2, newV, false, false⟩ else none)

/-- `get`: effective value, `undefined` for an absent stat. -/
def get (s : Store) (n : String) : Option ℚ :=
  if (lookupStat s n).isSome then some (calcEffective s n) else none

/-- `getBase`: raw base value, `undefined` for an absent stat. -/
def getBase (s : Store) (n : String) : Option ℚ :=
  (lookupStat s n).map (fun d => d.base)

/-- `set`: clamp the written base, return the new base, fire a change
event (plus the derived cascade) only if the effective value changed. -/
def set (s : Store) (n : String) (value : ℚ) :
    Except StatsError (Store × ℚ × List ChangeEvent) :=
  match lookupStat s n with
  | none => .error (.typeError ("Cannot set non-existent stat: \"" ++ n ++ "\""))
  | some d =>
    if d.isDerived then
      .error (.typeError ("Cannot set derived stat \"" ++ n ++ "\""))
    else
      let oldValue := calcEffective s n
      let derivedOld := captureDerived s
      let d' := { d with base := clampValue value d.min d.max }
      let s' := updateStat s n d'
      let newValue := calcEffective s' n
      let events :=
        if oldValue ≠ newValue then
          ChangeEvent.mk n oldValue newValue true false :: derivedEvents derivedOld s'
        else []
      .ok (s', d'.base, events)

/-- `modify`: like `set` but adds a delta to the current base. -/
def modify (s : Store) (n : String) (delta : ℚ) :
    Except StatsError (Store × ℚ × List ChangeEvent) :=
  match lookupStat s n with
  | none => .error (.typeError ("Cannot modify non-existent stat: \"" ++ n ++ "\""))
  | some d =>
    if d.isDerived then
      .error (.typeError ("Cannot modify derived stat \"" ++ n ++ "\""))
    else
      let oldValue := calcEffective s n
      let derivedOld := captureDerived s
      let d' := { d with base := clampValue (d.base + delta) d.min d.max }
      let s' := updateStat s n d'
      let newValue := calcEffective s' n
      let events :=
        if oldValue ≠ newValue then
          ChangeEvent.mk n oldValue newValue true false :: derivedEvents derivedOld s'
        else []
      .ok (s', d'.base, events)

/-- Duration normalization in `addModifier`: returns the stored nominal
duration and the remaining tick count. -/
def normalizeDuration : DurationInput → Dur × Dur
  | .omitted => (Dur.inf, Dur.inf)
  | .permanent => (Dur.inf, Dur.inf)
  | .temporary => (Dur.fin 1, Dur.fin 1)
  | .ticks n => (Dur.fin n, Dur.fin n)

/-- `findIndex`-then-replace-or-push: replace the first modifier with the
same source in place, else append. -/
def replaceFirst : List InternalModifier → InternalModifier → List InternalModifier
  | [], m => [m]
  | x :: xs, m => if x.source == m.source then m :: xs else x :: replaceFirst xs m

/-- `addModifier`: same-source replacement is in place; fires one change
event (plus derived cascade) only if the effective value changed.  (The
returned modifier descriptor of the source is not modelled; no claim
consumes it.) -/
def addModifier (s : Store) (n : String) (mi : ModifierInput) :
    Except StatsError (Store × List ChangeEvent) :=
  match lookupStat s n with
  | none => .error (.typeError ("Cannot add modifier to non-existent stat: \"" ++ n ++ "\""))
  | some d =>
    if d.isDerived then
      .error (.typeError ("Cannot add modifier to derived stat \"" ++ n ++ "\""))
    else
      let oldValue := calcEffective s n
      let derivedOld := captureDerived s
      let t := mi.type.getD ModType.flat
      let dr := normalizeDuration mi.duration
      let m : InternalModifier := ⟨mi.value, mi.source, t, dr.1, dr.2⟩
      let d' := { d with modifiers := replaceFirst d.modifiers m }
      let s' := updateStat s n d'
      let newValue := calcEffective s' n
      let events :=
        if oldValue ≠ newValue then
          ChangeEvent.mk n oldValue newValue false true :: derivedEvents derivedOld s'
        else []
      .ok (s', events)

/-- `removeModifier`: `false` (and no throw) when the stat or the source
is absent; filters out the source otherwise. -/
def removeModifier (s : Store) (n source : String) :
    Store × Bool × List ChangeEvent :=
  match lookupStat s n with
  | none => (s, false, [])
  | some d =>
    let oldValue := calcEffective s n
    let derivedOld := captureDerived s
    let newMods := d.modifiers.filter (fun m => m.source != source)
    let removed := decide (newMods.length < d.modifiers.length)
    let s' := updateStat s n { d with modifiers := newMods }
    if removed then
      let newValue := calcEffective s' n
      let events :=
        if oldValue ≠ newValue then
          ChangeEvent.mk n oldValue newValue false true :: derivedEvents derivedOld s'
        else []
      (s', true, events)
    else (s', false, [])

/-- Public modifier info returned by `getModifiers`: the duration shown is
the remaining one (`Dur.inf` rendering as `"permanent"`). -/
structure ModifierInfo where
  value : ℚ
  source : String
  type : ModType
  duration : Dur
deriving DecidableEq, Repr

/-- `getModifiers`: `undefined` iff the stat is absent. -/
def getModifiers (s : Store) (n : String) : Option (List ModifierInfo) :=
  (lookupStat s n).map (fun d =>
    d.modifiers.map (fun m => ⟨m.value, m.source, m.type, m.remainingDuration⟩))

/-- `getRemainingDuration`: `undefined` when the stat or source is absent. -/
def getRemainingDuration (s : Store) (n source : String) : Option Dur :=
  match lookupStat s n with
  | none => none
  | some d => (d.modifiers.find? (fun m => m.source == source)).map
      (fun m => m.remainingDuration)

/-- Clearing every stat's modifiers (the no-argument `clearModifiers`
branch): per-stat events fire inside the loop, the derived cascade once
at the end. -/
def clearModifiersAll (s : Store) : Store × ℕ × List ChangeEvent :=
  let derivedOld := captureDerived s
  let s' : Store := ⟨s.stats.map (fun p => (p.1, { p.2 with modifiers := [] }))⟩
  let count := (s.stats.map (fun p => p.2.modifiers.length)).sum
  let perStat := s.stats.filterMap (fun p =>
    let oldV := effEntry p.2
    let newV := effEntry { p.2 with modifiers := ([] : List InternalModifier) }
    if oldV ≠ newV then
      if 0 < p.2.modifiers.length then
        some (ChangeEvent.mk p.1 oldV newV false true)
      else none
    else none)
  (s', count, perStat ++ derivedEvents derivedOld s')

/-- `clearModifiers`: one stat (silent `0` for an unknown name) or all. -/
def clearModifiers (s : Store) (name? : Option String) :
    Store × ℕ × List ChangeEvent :=
  match name? with
  | some n =>
    match lookupStat s n with
    | none => (s, 0, [])
    | some d =>
      let oldV := calcEffective s n
      let derivedOld := captureDerived s
      let count := d.modifiers.length
      let s' := updateStat s n { d with modifiers := [] }
      let newV := calcEffective s' n
      let events :=
        if oldV ≠ newV then
          if 0 < count then
            ChangeEvent.mk n oldV newV false true :: derivedEvents derivedOld s'
          else []
        else []
      (s', count, events)
  | none => clearModifiersAll s

/-- The per-modifier decrement of `tick`: `remainingDuration--` for a
finite duration, no-op for `Infinity`. -/
def tickDec (m : InternalModifier) : InternalModifier :=
  match m.remainingDuration with
  | Dur.inf => m
  | Dur.fin k => { m with remainingDuration := Dur.fin (k - 1) }

/-- Expiry test of `tick` on an already-decremented modifier: its source,
when the remaining duration reached `≤ 0`. -/
def tickExpiredSel (m : InternalModifier) : Option String :=
  match m.remainingDuration with
  | Dur.inf => none
  | Dur.fin k => if k ≤ 0 then some m.source else none

/-- `tick` restricted to one entry: decrement every finite remaining
duration, collect sources that reached `≤ 0`, and remove them. -/
def tickEntry (d : StatData) : StatData × List String :=
  let decremented := d.modifiers.map tickDec
  let expired := decremented.filterMap tickExpiredSel
  ({ d with modifiers := decremented.filter (fun m => !(expired.contains m.source)) },
   expired)

/-- `tick`: process every stat, return the concatenated expired-source
list; per-stat events fire inside the loop, the derived cascade once at
the end. -/
def tick (s : Store) : Store × List String × List ChangeEvent :=
  let derivedOld := captureDerived s
  let results := s.stats.map (fun p => (p.1, p.2, tickEntry p.2))
  let s' : Store := ⟨results.map (fun r => (r.1, r.2.2.1))⟩
  let expired := results.foldl (fun acc r => acc ++ r.2.2.2) []
  let perStat := results.filterMap (fun r =>
    if 0 < r.2.2.2.length then
      let oldV := effEntry r.2.1
      let newV := effEntry r.2.2.1
      if oldV ≠ newV then some (ChangeEvent.mk r.1 oldV newV false true) else none
    else none)
  (s', expired, perStat ++ derivedEvents derivedOld s')

/-- A serialized modifier in a snapshot: `duration` is `"permanent"`
(`Dur.inf`) or a number of remaining ticks. -/
structure SerializedModifier where
  value : ℚ
  source : String
  type : ModType
  duration : Dur
deriving DecidableEq, Repr

/-- The versioned snapshot produced by `toJSON` / consumed by `fromJSON`. -/
structure Snapshot where
  version : ℚ
  stats : List (String × ℚ)
  modifiers : List (String × List SerializedModifier)
deriving DecidableEq, Repr

/-- The entry a definition constructs: initial base clamped into bounds,
no modifiers, not derived. -/
def defEntry (dfn : StatDefinition) : StatData :=
  ⟨clampValue dfn.base dfn.min dfn.max, dfn.min, dfn.max, [], false⟩

/-- One step of the construction loop: validate `min ≤ max` for this
definition, then insert its entry with `Map.set` semantics. -/
def buildStep (acc : List (String × StatData)) (p : String × StatDefinition) :
    Except StatsError (List (String × StatData)) :=
  match p.2.min, p.2.max with
  | some lo, some hi =>
    if hi < lo then
      .error (.validationError ("Min cannot be greater than max: " ++ p.1))
    else .ok (mapSet acc p.1 (defEntry p.2))
  | _, _ => .ok (mapSet acc p.1 (defEntry p.2))

/-- Construction loop of `createStatBlock`. -/
def buildStats (defs : List (String × StatDefinition)) :
    Except StatsError (List (String × StatData)) :=
  defs.foldlM buildStep []

/-- The keys skipped by the bundled `fromJSON` restore (and by the
bundled/unbundled template layer). -/
def protoKeys : List String := ["__proto__", "constructor", "prototype"]

/-- `fromJSON` base-value restore: for each snapshot stat that is not a
proto-named key and exists in the store, clamp the snapshot base into the
entry's bounds; unknown names are warned about and skipped. -/
def restoreStats (stats0 : List (String × StatData)) (snapStats : List (String × ℚ)) :
    List (String × StatData) :=
  snapStats.foldl (fun acc p =>
    if protoKeys.contains p.1 then acc
    else
      match findVal acc p.1 with
      | some d => acc.map
          (fun q => if q.1 == p.1 then (p.1, { d with base := clampValue p.2 d.min d.max }) else q)
      | none => acc) stats0

/-- Convert a serialized modifier back into an `addModifier` input, as the
restore loop passes the JSON object straight to `addModifier`. -/
def modifierInputOfSerialized (m : SerializedModifier) : ModifierInput :=
  { value := m.value, source := m.source, type := some m.type,
    duration := match m.duration with
      | Dur.inf => DurationInput.permanent
      | Dur.fin n => DurationInput.ticks n }

/-- `fromJSON` modifier restore: replay `addModifier` for every serialized
modifier of every known, non-proto-named stat.  The error branch is
unreachable (the target was just checked to exist and construction makes
no derived entries). -/
def restoreModifiers (s : Store) (snapMods : List (String × List SerializedModifier)) :
    Store :=
  snapMods.foldl (fun acc p =>
    if protoKeys.contains p.1 then acc
    else if (lookupStat acc p.1).isSome then
      p.2.foldl (fun acc2 m =>
        match addModifier acc2 p.1 (modifierInputOfSerialized m) with
        | .ok r => r.1
        | .error _ => acc2) acc
    else acc) s

/-- `createStatBlock`: construct from definitions, optionally replaying a
version-1 snapshot. -/
def createStatBlock (defs : List (String × StatDefinition)) (fromJSON : Option Snapshot) :
    Except StatsError Store := do
  let stats0 ← buildStats defs
  match fromJSON with
  | none => .ok ⟨stats0⟩
  | some snap =>
    if snap.version ≠ 1 then
      .error (.versionError "Unsupported version" snap.version)
    else
      .ok (restoreModifiers ⟨restoreStats stats0 snap.stats⟩ snap.modifiers)

/-- `toJSON`: version-1 snapshot of every non-derived stat's base, plus
the modifier lists of those with at least one modifier, serializing the
remaining duration. -/
def toJSON (s : Store) : Snapshot :=
  { version := 1,
    stats := (s.stats.filter (fun p => !p.2.isDerived)).map (fun p => (p.1, p.2.base)),
    modifiers := (s.stats.filter (fun p => !p.2.isDerived && !p.2.modifiers.isEmpty)).map
      (fun p => (p.1, p.2.modifiers.map (fun m => ⟨m.value, m.source, m.type, m.remainingDuration⟩))) }

/-- The mutating operations quantified over by the round-trip property. -/
inductive Op where
  | set (name : String) (value : ℚ)
  | addModifier (name : String) (m : ModifierInput)
deriving Repr

/-- Apply one operation; a thrown call leaves the store unchanged (the
source throws before mutating). -/
def applyOp (s : Store) : Op → Store
  | .set n v =>
    match set s n v with
    | .ok r => r.1
    | .error _ => s
  | .addModifier n m =>
    match addModifier s n m with
    | .ok r => r.1
    | .error _ => s

/-- Run a sequence of operations. -/
def runOps (s : Store) (ops : List Op) : Store :=
  ops.foldl applyOp s

/-- The internal modifier a replayed serialized modifier becomes: replaying
through `addModifier` stores the serialized (remaining) duration as both
the nominal and the remaining duration. -/
def internalOfSerialized (m : SerializedModifier) : InternalModifier :=
  ⟨m.value, m.source, m.type, m.duration, m.duration⟩

/-- The shape of a stat entry reachable from its definition by `set` and
`addModifier` calls: bounds as defined, non-derived, base stable under
re-clamping, distinct modifier sources, and nominal durations equal to the
remaining ones (no `tick` ran). -/
def entryOkFor (q : StatDefinition) (d : StatData) : Prop :=
  d.min = q.min ∧ d.max = q.max ∧ d.isDerived = false ∧
  d.base = clampValue d.base d.min d.max ∧
  (d.modifiers.map (fun m => m.source)).Nodup ∧
  ∀ m ∈ d.modifiers, m.duration = m.remainingDuration

/-- Entry-wise alignment of a store with its defining list: same names in
the same order, each entry reachable from its definition. -/
def StoreOkFor (defs : List (String × StatDefinition)) (s : Store) : Prop :=
  List.Forall₂ (fun (p : String × StatDefinition) (e : String × StatData) =>
    e.1 = p.1 ∧ entryOkFor p.2 e.2) defs s.stats

/-- A template stat definition (`{default, min?, max?}`). -/
structure TemplateStatDef where
  default : ℚ
  min : Option ℚ := none
  max : Option ℚ := none
deriving DecidableEq, Repr

/-- Override lookup in the template layer. -/
def lookupOverride (l : List (String × ℚ)) (k : String) : Option ℚ :=
  (l.find? (fun p => p.1 == k)).map (fun p => p.2)

/-- `createStatTemplate(...).create(overrides?)` (bundled `he`): build
definitions from defaults, applying an override only when the stat name
is not one of the proto keys, then construct the stat block.  (The
unknown-override warning loop has no effect on the result.) -/
def templateCreate (statDefs : List (String × TemplateStatDef))
    (overrides : Option (List (String × ℚ))) : Except StatsError Store :=
  let defs := statDefs.map (fun p =>
    let base := match overrides with
      | none => p.2.default
      | some ov =>
        match lookupOverride ov p.1 with
        | some x => if protoKeys.contains p.1 then p.2.default else x
        | none => p.2.default
    (p.1, ({ base := base, min := p.2.min, max := p.2.max } : StatDefinition)))
  createStatBlock defs none

/-! ### Derived stat tracker (`createDerivedStat`)

The `_derivedDependencies` map and the instrumented dry run.  A formula
is an arbitrary closure; its observable behaviour under the read proxy is
the sequence of stat names it reads, plus whether it then throws an error
of its own, which is how it is modelled here. -/

/-- The `_derivedDependencies` map: derived name to its recorded reads. -/
abbrev DepsMap := List (String × List String)

/-- JS `Set.add`: append if not already present. -/
def addUniq (l : List String) (x : String) : List String :=
  if l.contains x then l else l ++ [x]

/-- `getTransitiveDependencies` with its mutable visited set threaded
through sibling calls.  The fuel bounds the recursion depth; every
recursive step first adds an unvisited name, so `m.length + 1` suffices. -/
def getTransVisit (m : DepsMap) : ℕ → String → List String → List String × List String
  | 0, _, visited => ([], visited)
  | fuel + 1, v, visited =>
    if visited.contains v then ([], visited)
    else
      let visited := visited ++ [v]
      match (m.find? (fun p => p.1 == v)).map (fun p => p.2) with
      | none => ([], visited)
      | some deps =>
        deps.foldl (fun acc d =>
          let r := getTransVisit m fuel d acc.2
          (r.1.foldl addUniq acc.1, r.2)) (deps.foldl addUniq [], visited)

/-- The recorded transitive dependency set of a stat. -/
def getTransitiveDependencies (m : DepsMap) (v : String) : List String :=
  (getTransVisit m (m.length + 1) v []).1

/-- The instrumented dry run: walk the formula's reads in order; a read of
`name` itself raises with cycle `[name]`; a read of `c` whose transitive
dependency set contains `name` raises with cycle `c :: deps ++ [name]`;
otherwise the read is recorded and the walk continues. -/
def detectCycle (m : DepsMap) (name : String) : List String → Option (List String)
  | [] => none
  | c :: rest =>
    if c = name then some [name]
    else
      let trans := getTransitiveDependencies m c
      if trans.contains name then some (c :: trans ++ [name])
      else detectCycle m name rest

/-- The model of a formula's behaviour under the read proxy: the stat
names it reads (in order) and whether it then throws its own error. -/
structure FormulaModel where
  reads : List String
  throwsOwn : Bool
deriving Repr

/-- The `(store, deps-map)` pair `createDerivedStat` operates on. -/
structure DerivedCtx where
  deps : DepsMap
  store : Store
deriving Repr

/-- `Map.set` on the dependency map. -/
def depsSet (l : DepsMap) (k : String) (v : List String) : DepsMap :=
  if l.any (fun p => p.1 == k) then l.map (fun p => if p.1 == k then (k, v) else p)
  else l ++ [(k, v)]

/-- `createDerivedStat`: evaluate the formula once, eagerly, against the
instrumented proxy.  A cycle raises `CircularDependencyError` at once
(dependencies unrecorded, stat not added); any other formula error is
swallowed; on success the deduplicated reads are recorded and the stat is
registered as derived. -/
def createDerivedStat (ctx : DerivedCtx) (name : String) (fm : FormulaModel) :
    Except StatsError DerivedCtx :=
  match detectCycle ctx.deps name fm.reads with
  | some cyc =>
    .error (.circularDependencyError "Circular dependency detected in derived stat" cyc)
  | none =>
    .ok { deps := depsSet ctx.deps name (fm.reads.foldl addUniq []),
          store := ⟨mapSet ctx.store.stats name ⟨0, none, none, [], true⟩⟩ }

/-! ### Dice notation parser (`parseNotation`) and roller (`roll`)

The injected random source is a function `ℕ → ℚ` of uniform draws in
`[0, 1)`, indexed by consumption order, mirroring the substitutable
`Math.random` sequence the tests install. -/

/-- A reroll condition's comparison operator. -/
inductive RerollOp where
  | eq
  | lt
  | gt
  | le
  | ge
deriving DecidableEq, Repr

/-- One reroll condition `r[<op>]<int>`. -/
structure RerollCond where
  operator : RerollOp
  value : ℤ
deriving DecidableEq, Repr

/-- Parser output (`ParsedNotation`). -/
structure ParsedNotation where
  count : ℕ
  sides : ℕ
  modifiers : ℤ
  keepHighest : Option ℕ := none
  keepLowest : Option ℕ := none
  dropHighest : Option ℕ := none
  dropLowest : Option ℕ := none
  exploding : Bool := false
  rerollConditions : List RerollCond := []
deriving DecidableEq, Repr

/-- Greedy digit span, as matched by a `\d*` / `\d+` group. -/
def takeDigits (l : List Char) : List Char × List Char :=
  (l.takeWhile (fun c => c.isDigit), l.dropWhile (fun c => c.isDigit))

/-- `parseInt` on a digit string. -/
def digitsToNat (l : List Char) : ℕ :=
  l.foldl (fun n c => n * 10 + (c.toNat - '0'.toNat)) 0

/-- The `^-\d+[dD]` check (negative dice count). -/
def startsNegDice : List Char → Bool
  | '-' :: rest =>
    let d := takeDigits rest
    !d.1.isEmpty && (match d.2 with
      | c :: _ => c == 'd' || c == 'D'
      | [] => false)
  | _ => false

/-- The `[dD]-\d+` check (negative die sides), searched at any position. -/
def hasNegSides : List Char → Bool
  | [] => false
  | c :: rest =>
    ((c == 'd' || c == 'D') &&
      (match rest with
       | '-' :: r2 => !(takeDigits r2).1.isEmpty
       | _ => false)) || hasNegSides rest

/-- The alternation `(<=|>=|<|>|=)?` at the head of the reroll tail:
longest alternative first, the empty alternative defaulting to `=`. -/
def parseRerollOp (l : List Char) : RerollOp × List Char :=
  match l with
  | '<' :: '=' :: r => (RerollOp.le, r)
  | '>' :: '=' :: r => (RerollOp.ge, r)
  | '<' :: r => (RerollOp.lt, r)
  | '>' :: r => (RerollOp.gt, r)
  | '=' :: r => (RerollOp.eq, r)
  | r => (RerollOp.eq, r)

/-- The optional reroll operator+integer match `(<=|>=|<|>|=)?(\d+)`:
`none` when no digits follow (possibly after an operator; the regex's
no-operator fallback can never succeed in that case since an operator
character is not a digit). -/
def parseRerollTail (l : List Char) : Option (RerollCond × List Char) :=
  let p := parseRerollOp l
  let d := takeDigits p.2
  if d.1.isEmpty then none else some (⟨p.1, (digitsToNat d.1 : ℤ)⟩, d.2)

/-- Whether the scan position starts with one of two (case) characters. -/
def headIs (l : List Char) (a b : Char) : Bool :=
  match l with
  | x :: _ => x == a || x == b
  | [] => false

/-- The post-`[count]d<sides>` scan loop of `parseNotation`: signed flat
modifiers, `kh`/`kl`/`dh`/`dl` (with optional trailing integer), `!`, and
`r` reroll conditions, in the source's test order; any other character is
a fatal `ParseError`.

The source's `while (pos < remainder.length)` loop consumes at least one
character per iteration; the structural `fuel` argument (passed as the
remainder's length by `parseNotation`) therefore bounds the iteration
count, and the fuel-exhausted branch is unreachable
(`scanMods_fuel_irrelevant` below proves any fuel `≥ l.length` gives the
same result). -/
def scanMods (orig : String) : ℕ → ParsedNotation → List Char →
    Except StatsError ParsedNotation
  | 0, p, _ => .ok p
  | _, p, [] => .ok p
  | fuel + 1, p, c :: rest =>
    if c = '+' ∨ c = '-' then
      -- doubled sign (`++`, `+-`, ...) is rejected before the digit scan
      if headIs rest '+' '-' then .error (.parseError "Invalid modifier syntax" orig)
      else
        let d := takeDigits rest
        if d.1.isEmpty then .error (.parseError "Incomplete modifier" orig)
        else if d.1.contains '.' then .error (.parseError "Modifiers must be integers" orig)
        else
          let sign : ℤ := if c = '+' then 1 else -1
          scanMods orig fuel { p with modifiers := p.modifiers + sign * digitsToNat d.1 } d.2
    else if (c == 'k' || c == 'K') && headIs rest 'h' 'H' then
      let d := takeDigits rest.tail
      if d.1.isEmpty then scanMods orig fuel p rest.tail
      else scanMods orig fuel { p with keepHighest := some (digitsToNat d.1) } d.2
    else if (c == 'k' || c == 'K') && headIs rest 'l' 'L' then
      let d := takeDigits rest.tail
      if d.1.isEmpty then scanMods orig fuel p rest.tail
      else scanMods orig fuel { p with keepLowest := some (digitsToNat d.1) } d.2
    else if (c == 'd' || c == 'D') && headIs rest 'h' 'H' then
      let d := takeDigits rest.tail
      if d.1.isEmpty then scanMods orig fuel p rest.tail
      else scanMods orig fuel { p with dropHighest := some (digitsToNat d.1) } d.2
    else if (c == 'd' || c == 'D') && headIs rest 'l' 'L' then
      let d := takeDigits rest.tail
      if d.1.isEmpty then scanMods orig fuel p rest.tail
      else scanMods orig fuel { p with dropLowest := some (digitsToNat d.1) } d.2
    else if c = '!' then scanMods orig fuel { p with exploding := true } rest
    else if c = 'r' ∨ c = 'R' then
      match parseRerollTail rest with
      | some pr =>
        scanMods orig fuel { p with rerollConditions := p.rerollConditions ++ [pr.1] } pr.2
      | none =>
        scanMods orig fuel
          { p with rerollConditions := p.rerollConditions ++ [⟨RerollOp.eq, 1⟩] } rest
    else .error (.parseError ("Unexpected character: \"" ++ String.mk [c] ++ "\"") orig)

/-- Decidable equality for `Except` results (not provided by core). -/
instance {ε α : Type} [DecidableEq ε] [DecidableEq α] : DecidableEq (Except ε α) :=
  fun a b =>
    match a, b with
    | .ok x, .ok y =>
      if h : x = y then isTrue (by rw [h]) else isFalse (by simp [h])
    | .error x, .error y =>
      if h : x = y then isTrue (by rw [h]) else isFalse (by simp [h])
    | .ok _, .error _ => isFalse (by simp)
    | .error _, .ok _ => isFalse (by simp)

/-- `parseNotation`: validations, the anchored `^(\d*)([dD])(\d+)` head
match (greedy digit spans are equivalent here since backtracking cannot
move a digit into the `[dD]` slot), then the modifier scan loop.  The
source's `count < 0` / `sides < 0` checks after `parseInt` are
unreachable (digit-only tokens) and are not repeated here; its
decimal-point checks on the captured tokens are kept verbatim. -/
def parseNotation (o : String) : Except StatsError ParsedNotation :=
  -- `trimmed` is empty exactly when every character is whitespace, i.e.
  -- when the whitespace-stripped character list is empty
  let cs := o.toList.filter (fun ch => !ch.isWhitespace)
  if cs.isEmpty then .error (.parseError "Dice notation cannot be empty" o)
  else
    if startsNegDice cs then
      .error (.parseError "Cannot roll negative number of dice" o)
    else if hasNegSides cs then
      .error (.parseError "Die cannot have negative sides" o)
    else
      let cd := takeDigits cs
      if headIs cd.2 'd' 'D' then
        let sd := takeDigits cd.2.tail
        if sd.1.isEmpty then
          .error (.parseError ("Invalid dice notation: \"" ++ o ++ "\"") o)
        else if cd.1.contains '.' then
          .error (.parseError "Dice count must be an integer" o)
        else if sd.1.contains '.' then
          .error (.parseError "Die size must be an integer" o)
        else
          let count := if cd.1.isEmpty then 1 else digitsToNat cd.1
          let sides := digitsToNat sd.1
          if count = 0 then .error (.parseError "Cannot roll zero dice" o)
          else if count > 10000 then
            .error (.parseError "Cannot roll more than 10000 dice" o)
          else if sides = 0 then
            .error (.parseError "Die must have at least 1 side" o)
          else if sides > 1000000 then
            .error (.parseError "Die cannot have more than 1000000 sides" o)
          else scanMods o sd.2.length { count := count, sides := sides, modifiers := 0 } sd.2
      else .error (.parseError ("Invalid dice notation: \"" ++ o ++ "\"") o)

/-- One raw die event. -/
structure DieRoll where
  value : ℤ
  exploded : Bool
  rerolled : Bool
deriving DecidableEq, Repr

/-- `rollDie`: `Math.floor(random() * sides) + 1`, drawing the `i`-th
value of the injected uniform sequence. -/
def rollDie (g : ℕ → ℚ) (i : ℕ) (sides : ℕ) : ℤ :=
  ⌊g i * sides⌋ + 1

/-- `shouldReroll`: logical OR over the reroll conditions. -/
def shouldReroll (v : ℤ) (cs : List RerollCond) : Bool :=
  cs.any (fun c =>
    match c.operator with
    | .eq => v == c.value
    | .lt => decide (v < c.value)
    | .gt => decide (v > c.value)
    | .le => decide (v ≤ c.value)
    | .ge => decide (v ≥ c.value))

/-- The explosion `while` loop: keep rolling while the most recent value
hit the die's maximum and fewer than 100 rolls were made for this die
(`explosionCount < 100` with the count starting at 1 for the initial
roll, i.e. at most `rem = 100 - 1 = 99` further iterations, which is the
structural argument here).  Returns the roll history and the next
unconsumed random index. -/
def explodeLoop (g : ℕ → ℚ) (sides : ℕ) (exploding : Bool) :
    ℕ → ℕ → ℤ → List DieRoll → List DieRoll × ℕ
  | idx, 0, _, acc => (acc, idx)
  | idx, rem + 1, last, acc =>
    if exploding = true ∧ last = (sides : ℤ) then
      let v := rollDie g idx sides
      explodeLoop g sides exploding (idx + 1) rem v (acc ++ [⟨v, true, false⟩])
    else (acc, idx)

/-- `rollSingleDie`: initial roll, explosion chain, then the single
optional reroll of the final value (kept in history, marked, replaced by
one further roll). -/
def rollSingleDie (g : ℕ → ℚ) (idx : ℕ) (sides : ℕ) (exploding : Bool)
    (rcs : List RerollCond) : List DieRoll × ℕ :=
  let v := rollDie g idx sides
  let er := explodeLoop g sides exploding (idx + 1) 99 v [⟨v, false, false⟩]
  if rcs.length > 0 then
    match er.1.getLast? with
    | some w =>
      if shouldReroll w.value rcs then
        let c := rollDie g er.2 sides
        (er.1.dropLast ++ [⟨w.value, w.exploded, true⟩, ⟨c, false, false⟩], er.2 + 1)
      else er
    | none => er
  else er

/-- A die's contribution to keep/drop selection: everything before the
reroll point plus the replacement value, or the whole explosion chain. -/
def dieContribution (rolls : List DieRoll) : ℤ :=
  match rolls.findIdx? (fun r => r.rerolled) with
  | some a =>
    ((rolls.take a).map (fun r => r.value)).sum +
      (match rolls.get? (a + 1) with
       | some r => r.value
       | none => 0)
  | none => (rolls.map (fun r => r.value)).sum

/-- `selectKeptDice`.  JS's stable ascending numeric sort is modelled by
insertion sort (stability makes any stable ascending sort produce the
identical list); `slice(-keep)` is `drop (length - keep)`; the JS
`Math.max(0, keep)` clamp is a no-op over `ℕ` because every candidate
that would be negative in JS truncates to `0` here, and the minimum of
clamped candidates equals the clamp of the minimum. -/
def selectKeptDice (rolls : List ℤ) (kh kl dh dl : Option ℕ) : List ℤ :=
  if rolls.isEmpty then []
  else
    let sorted := rolls.insertionSort (fun a b => a ≤ b)
    let keep0 := rolls.length
    let keep1 := match kh with | some k => min keep0 k | none => keep0
    let keep2 := match kl with | some k => min keep1 k | none => keep1
    let keep3 := match dh with | some k => min keep2 (rolls.length - k) | none => keep2
    let keep4 := match dl with | some k => min keep3 (rolls.length - k) | none => keep3
    if keep4 = 0 then []
    else if kh.isSome || dl.isSome then
      (sorted.drop (sorted.length - keep4)).insertionSort (fun a b => a ≤ b)
    else if kl.isSome || dh.isSome then sorted.take keep4
    else sorted

/-- `RollResult` (the `notation` field is renamed `rollNotation`;
`notation` is a Lean keyword). -/
structure RollResult where
  total : ℤ
  rolls : List ℤ
  kept : List ℤ
  rollNotation : String
  modifier : ℤ
deriving DecidableEq, Repr

/-- Roll `count` dice, threading the random index. -/
def rollAllDice (g : ℕ → ℚ) (sides : ℕ) (expl : Bool) (rcs : List RerollCond) :
    ℕ → ℕ → List (List DieRoll) × ℕ
  | 0, idx => ([], idx)
  | n + 1, idx =>
    let d := rollSingleDie g idx sides expl rcs
    let rest := rollAllDice g sides expl rcs n d.2
    (d.1 :: rest.1, rest.2)

/-- `roll`: parse, roll every die, select kept dice, and total. -/
def roll (o : String) (g : ℕ → ℚ) : Except StatsError RollResult := do
  let t ← parseNotation o
  let all := (rollAllDice g t.sides t.exploding t.rerollConditions t.count 0).1
  let allRolls := all.foldl (fun acc l => acc ++ l.map (fun r => r.value)) []
  let diceValues := all.map dieContribution
  let kept := selectKeptDice diceValues t.keepHighest t.keepLowest t.dropHighest t.dropLowest
  .ok { total := kept.sum + t.modifiers,
        rolls := allRolls,
        kept := kept,
        rollNotation := o,
        modifier := t.modifiers }


/-! ### Concrete scenario stores used by individual claims -/

/-- The store left by `addModifier`, discarding the returned modifier
and events. -/
def addedStore (s : Store) (n : String) (mi : ModifierInput) : Except StatsError Store :=
  (addModifier s n mi).map (fun r => r.1)

/-- The §8 scenario of C1: `strength` base 10, then flat +5, flat +3,
multiply ×2, multiply ×1.5, added in that order. -/
def c1Scenario : Except StatsError Store := do
  let s0 ← createStatBlock [("strength", { base := 10 })] none
  let s1 ← addedStore s0 "strength" ⟨5, "f1", some ModType.flat, DurationInput.omitted⟩
  let s2 ← addedStore s1 "strength" ⟨3, "f2", some ModType.flat, DurationInput.omitted⟩
  let s3 ← addedStore s2 "strength" ⟨2, "m1", some ModType.multiply, DurationInput.omitted⟩
  addedStore s3 "strength" ⟨3/2, "m2", some ModType.multiply, DurationInput.omitted⟩

/-- The C2 scenario: `hp` base 10 bounded to `[0, 10]`; a flat +100
modifier pushes the effective value to 110, outside the bounds, while
the base stays 10. -/
def c2Scenario : Except StatsError Store := do
  let s0 ← createStatBlock [("hp", { base := 10, min := some 0, max := some 10 })] none
  addedStore s0 "hp" ⟨100, "buff", some ModType.flat, DurationInput.omitted⟩

/-- The C4 scenario: `a` base 10 with a flat +5 modifier of duration 3. -/
def c4Scenario : Except StatsError Store := do
  let s0 ← createStatBlock [("a", { base := 10 })] none
  addedStore s0 "a" ⟨5, "buff", some ModType.flat, DurationInput.ticks 3⟩

/-- The at-most-one-modifier-per-`(stat, source)` invariant: every
entry's modifier list has pairwise distinct sources. -/
def SourcesOk (s : Store) : Prop :=
  ∀ p ∈ s.stats, (p.2.modifiers.map (fun m => m.source)).Nodup

/-- The C6 scenario: `a` base 10; `{value 2, source x}` then
`{value 5, source x}` added with the same source. -/
def c6Scenario : Except StatsError Store := do
  let s0 ← createStatBlock [("a", { base := 10 })] none
  let s1 ← addedStore s0 "a" ⟨2, "x", none, DurationInput.omitted⟩
  addedStore s1 "a" ⟨5, "x", none, DurationInput.omitted⟩

/-- A fixed uniform sequence for the C7 scenario: yields die faces
1, 3, 5, 6 on a d6. -/
def gFixed : ℕ → ℚ := fun i => ([0, 1/3, 2/3, 5/6].getD i 0 : ℚ)

/-- The C5 scenario: define `b` reading `a`, then `c` reading `b`, then
try to define `a` reading `c`, which closes a cycle through the two
previously recorded derived stats. -/
def c5Scenario : Except StatsError DerivedCtx := do
  let ctx0 : DerivedCtx := ⟨[], ⟨[]⟩⟩
  let ctx1 ← createDerivedStat ctx0 "b" ⟨["a"], false⟩
  let ctx2 ← createDerivedStat ctx1 "c" ⟨["b"], false⟩
  createDerivedStat ctx2 "a" ⟨["c"], false⟩

/-! ### Helper lemmas -/

theorem findVal_nil (n : String) : findVal [] n = none := rfl

theorem findVal_cons (p : String × StatData) (rest : List (String × StatData))
    (n : String) :
    findVal (p :: rest) n = if p.1 = n then some p.2 else findVal rest n := by
  by_cases h : p.1 = n
  · rw [findVal, List.find?_cons_of_pos _ (by simpa using h), if_pos h]
    rfl
  · rw [findVal, List.find?_cons_of_neg _ (by simpa using h), if_neg h]
    rfl

theorem findVal_update_self (l : List (String × StatData)) (n : String) (d : StatData)
    (h : (findVal l n).isSome) :
    findVal (l.map (fun p => if p.1 == n then (n, d) else p)) n = some d := by
  induction l with
  | nil => simp [findVal_nil] at h
  | cons p rest ih =>
    rw [findVal_cons] at h
    by_cases hp : p.1 = n
    · simp only [List.map_cons, if_pos (show (p.1 == n) = true by simpa using hp)]
      rw [findVal_cons, if_pos rfl]
    · simp only [List.map_cons, if_neg (show ¬(p.1 == n) = true by simpa using hp)]
      rw [findVal_cons, if_neg hp]
      rw [if_neg hp] at h
      exact ih h

theorem findVal_update_ne (l : List (String × StatData)) (n m : String) (d : StatData)
    (h : m ≠ n) :
    findVal (l.map (fun p => if p.1 == n then (n, d) else p)) m = findVal l m := by
  induction l with
  | nil => rfl
  | cons p rest ih =>
    by_cases hp : p.1 = n
    · have hnm : (n : String) ≠ m := fun hh => h hh.symm
      simp only [List.map_cons, if_pos (show (p.1 == n) = true by simpa using hp)]
      rw [findVal_cons, findVal_cons, if_neg hnm,
        if_neg (show ¬p.1 = m by rw [hp]; exact hnm)]
      exact ih
    · simp only [List.map_cons, if_neg (show ¬(p.1 == n) = true by simpa using hp)]
      rw [findVal_cons, findVal_cons]
      by_cases hpm : p.1 = m
      · rw [if_pos hpm, if_pos hpm]
      · rw [if_neg hpm, if_neg hpm]
        exact ih

theorem findVal_isSome_of_any (l : List (String × StatData)) (k : String)
    (h : l.any (fun p => p.1 == k)) : (findVal l k).isSome := by
  induction l with
  | nil => simp at h
  | cons p rest ih =>
    rw [findVal_cons]
    by_cases hp : p.1 = k
    · simp [hp]
    · rw [if_neg hp]
      have h' : ((p.1 == k) || rest.any (fun q => q.1 == k)) = true := by
        simpa only [List.any_cons] using h
      rw [show (p.1 == k) = false by simpa using hp, Bool.false_or] at h'
      exact ih h'

theorem findVal_append_single_self (l : List (String × StatData)) (k : String)
    (v : StatData) (h : ¬l.any (fun p => p.1 == k)) :
    findVal (l ++ [(k, v)]) k = some v := by
  induction l with
  | nil => simp [findVal_cons]
  | cons p rest ih =>
    simp only [List.any_cons, Bool.or_eq_true, not_or] at h
    have hp : ¬p.1 = k := by simpa using h.1
    rw [List.cons_append, findVal_cons, if_neg hp]
    exact ih (by simpa using h.2)

theorem findVal_append_single_ne (l : List (String × StatData)) (k n : String)
    (v : StatData) (h : n ≠ k) :
    findVal (l ++ [(k, v)]) n = findVal l n := by
  induction l with
  | nil =>
    rw [List.nil_append, findVal_cons, if_neg (fun hh => h hh.symm)]
  | cons p rest ih =>
    rw [List.cons_append, findVal_cons, findVal_cons]
    by_cases hp : p.1 = n
    · rw [if_pos hp, if_pos hp]
    · rw [if_neg hp, if_neg hp]
      exact ih

theorem findVal_mapSet_self (l : List (String × StatData)) (k : String) (v : StatData) :
    findVal (mapSet l k v) k = some v := by
  unfold mapSet
  by_cases hany : l.any (fun p => p.1 == k)
  · rw [if_pos hany]
    exact findVal_update_self l k v (findVal_isSome_of_any l k hany)
  · rw [if_neg hany]
    exact findVal_append_single_self l k v hany

theorem findVal_mapSet_ne (l : List (String × StatData)) (k n : String) (v : StatData)
    (h : n ≠ k) :
    findVal (mapSet l k v) n = findVal l n := by
  unfold mapSet
  by_cases hany : l.any (fun p => p.1 == k)
  · rw [if_pos hany]
    exact findVal_update_ne l k n v h
  · rw [if_neg hany]
    exact findVal_append_single_ne l k n v h

/-- `foldl` of additions equals adding the sum. -/
theorem foldl_add_values (l : List InternalModifier) (b : ℚ) :
    l.foldl (fun v m => v + m.value) b = b + (l.map (fun m => m.value)).sum := by
  induction l generalizing b with
  | nil => simp
  | cons m rest ih => simp [ih, add_assoc]

/-- `foldl` of multiplications equals multiplying by the product. -/
theorem foldl_mul_values (l : List InternalModifier) (b : ℚ) :
    l.foldl (fun v m => v * m.value) b = b * (l.map (fun m => m.value)).prod := by
  induction l generalizing b with
  | nil => simp
  | cons m rest ih => simp [ih, mul_assoc]

/-- The pipeline in closed form: `(base + Σ flats) × Π multiplies`. -/
theorem pipelineValue_eq (base : ℚ) (mods : List InternalModifier) :
    pipelineValue base mods =
      (base + ((mods.filter (fun m => m.type == ModType.flat)).map (fun m => m.value)).sum) *
        ((mods.filter (fun m => m.type == ModType.multiply)).map (fun m => m.value)).prod := by
  simp [pipelineValue, foldl_add_values, foldl_mul_values]

theorem clampValue_mem (v lo hi : ℚ) (h : lo ≤ hi) :
    lo ≤ clampValue v (some lo) (some hi) ∧ clampValue v (some lo) (some hi) ≤ hi := by
  simp only [clampValue]
  constructor
  · exact le_min (le_max_right v lo) h
  · exact min_le_right _ hi

theorem buildStep_ok_val {acc : List (String × StatData)} {p : String × StatDefinition}
    {l : List (String × StatData)} (h : buildStep acc p = .ok l) :
    l = mapSet acc p.1 (defEntry p.2) := by
  unfold buildStep at h
  split at h
  · split at h
    · exact absurd h (by simp)
    · exact (Except.ok.inj h).symm
  · exact (Except.ok.inj h).symm

/-- After a successful construction fold, the entry found for a name is
the one built from the last definition carrying that name, or whatever
the accumulator held. -/
theorem buildFold_lookup (defs : List (String × StatDefinition)) :
    ∀ (acc l : List (String × StatData)) (n : String),
      defs.foldlM buildStep acc = .ok l →
      findVal l n =
        (match (defs.reverse.find? (fun p => p.1 == n)) with
         | some p => some (defEntry p.2)
         | none => findVal acc n) := by
  induction defs with
  | nil =>
    intro acc l n h
    simp only [List.foldlM] at h
    cases h
    simp
  | cons p rest ih =>
    intro acc l n h
    simp only [List.foldlM_cons] at h
    cases hstep : buildStep acc p with
    | error e =>
      rw [hstep] at h
      simp [Bind.bind, Except.bind] at h
    | ok acc' =>
      rw [hstep] at h
      simp only [Bind.bind, Except.bind] at h
      rw [ih acc' l n h, buildStep_ok_val hstep]
      rw [List.reverse_cons, List.find?_append]
      cases hrev : rest.reverse.find? (fun q => q.1 == n) with
      | some q => simp [hrev]
      | none =>
        by_cases hn : p.1 = n
        · have hf : List.find? (fun q => q.1 == n) [p] = some p :=
            List.find?_cons_of_pos _ (by simp [hn])
          rw [hf]
          simp only [Option.none_or]
          subst hn
          exact findVal_mapSet_self acc p.1 (defEntry p.2)
        · have hf : List.find? (fun q => q.1 == n) [p] = none := by
            rw [List.find?_cons_of_neg _ (by simp [hn]), List.find?_nil]
          rw [hf]
          simp only [Option.none_or]
          exact findVal_mapSet_ne acc p.1 n (defEntry p.2) (fun hh => hn hh.symm)

theorem modType_beq_eq_decide (a b : ModType) : (a == b) = decide (a = b) := rfl

theorem takeDigits_snd_length_le (l : List Char) :
    (takeDigits l).2.length ≤ l.length := by
  induction l with
  | nil => simp [takeDigits]
  | cons c rest ih =>
    by_cases h : c.isDigit
    · simp only [takeDigits, List.dropWhile, h]
      exact le_trans (by simpa [takeDigits] using ih) (Nat.le_succ _)
    · simp [takeDigits, List.dropWhile, h]

theorem parseRerollOp_length_le (l : List Char) :
    (parseRerollOp l).2.length ≤ l.length := by
  unfold parseRerollOp
  split <;> simp <;> omega

theorem parseRerollTail_length_le {l : List Char} {c : RerollCond} {l' : List Char}
    (h : parseRerollTail l = some (c, l')) : l'.length ≤ l.length := by
  simp only [parseRerollTail] at h
  split at h
  · exact absurd h (by simp)
  · injection h with h1
    injection h1 with h2 h3
    calc l'.length = (takeDigits (parseRerollOp l).2).2.length := by rw [h3]
      _ ≤ (parseRerollOp l).2.length := takeDigits_snd_length_le _
      _ ≤ l.length := parseRerollOp_length_le l

/-- The scan loop's fuel is irrelevant as soon as it covers the input
length: each iteration consumes at least one character. -/
theorem scanMods_fuel_irrelevant (orig : String) :
    ∀ (n : ℕ) (p : ParsedNotation) (l : List Char) (f1 f2 : ℕ),
      l.length ≤ n → l.length ≤ f1 → l.length ≤ f2 →
      scanMods orig f1 p l = scanMods orig f2 p l := by
  intro n
  induction n with
  | zero =>
    intro p l f1 f2 h0 h1 h2
    have hl : l = [] := List.length_eq_zero.mp (Nat.le_zero.mp h0)
    subst hl
    cases f1 <;> cases f2 <;> rfl
  | succ n ih =>
    intro p l f1 f2 h0 h1 h2
    match l with
    | [] => cases f1 <;> cases f2 <;> rfl
    | c :: rest =>
      match f1, f2 with
      | g1 + 1, g2 + 1 =>
        simp only [List.length_cons, Nat.succ_le_succ_iff] at h0 h1 h2
        have htail : rest.tail.length ≤ rest.length := by cases rest <;> simp
        have hdig := takeDigits_snd_length_le rest
        have hdigt := takeDigits_snd_length_le rest.tail
        simp only [scanMods]
        split_ifs <;>
          first
          | rfl
          | exact ih _ _ _ _ (le_trans hdig h0) (le_trans hdig h1) (le_trans hdig h2)
          | exact ih _ _ _ _ (le_trans htail h0) (le_trans htail h1) (le_trans htail h2)
          | exact ih _ _ _ _ (le_trans (le_trans hdigt htail) h0)
              (le_trans (le_trans hdigt htail) h1) (le_trans (le_trans hdigt htail) h2)
          | exact ih _ _ _ _ h0 h1 h2
          | (cases hpr : parseRerollTail rest with
             | none => exact ih _ _ _ _ h0 h1 h2
             | some pr =>
               have hle := parseRerollTail_length_le hpr
               exact ih _ _ _ _ (le_trans hle h0) (le_trans hle h1) (le_trans hle h2))

theorem lookupStat_update_self (s : Store) (n : String) (d : StatData)
    (h : (lookupStat s n).isSome) :
    lookupStat (updateStat s n d) n = some d :=
  findVal_update_self s.stats n d h

theorem lookupStat_update_ne (s : Store) (n m : String) (d : StatData)
    (h : m ≠ n) :
    lookupStat (updateStat s n d) m = lookupStat s m :=
  findVal_update_ne s.stats n m d h

/-- In a key-Nodup association list, `find?` of a key returns the unique
entry carrying it. -/
theorem find?_key_of_nodup {α : Type} {l : List (String × α)} {n : String} {v : α}
    (hnodup : (l.map Prod.fst).Nodup) (hmem : (n, v) ∈ l) :
    l.find? (fun p => p.1 == n) = some (n, v) := by
  induction l with
  | nil => cases hmem
  | cons p rest ih =>
    simp only [List.map_cons, List.nodup_cons] at hnodup
    cases List.mem_cons.mp hmem with
    | inl heq =>
      subst heq
      exact List.find?_cons_of_pos _ (by simp)
    | inr hmem' =>
      have hp : p.1 ≠ n := by
        intro hh
        exact hnodup.1 (hh ▸ (List.mem_map.mpr ⟨(n, v), hmem', rfl⟩))
      rw [List.find?_cons_of_neg _ (by simp [hp])]
      exact ih hnodup.2 hmem'

/-- Lookup in a freshly constructed store: the entry built from the
definition carrying that name (unique thanks to Nodup keys). -/
theorem createStatBlock_none_lookup {defs : List (String × StatDefinition)} {s0 : Store}
    (h : createStatBlock defs none = .ok s0) {n : String} {dfn : StatDefinition}
    (hnodup : (defs.map Prod.fst).Nodup) (hmem : (n, dfn) ∈ defs) :
    lookupStat s0 n = some (defEntry dfn) := by
  unfold createStatBlock at h
  cases hb : buildStats defs with
  | error e =>
    rw [hb] at h
    simp [Bind.bind, Except.bind] at h
  | ok l =>
    rw [hb] at h
    simp only [Bind.bind, Except.bind] at h
    cases h
    have := buildFold_lookup defs [] l n hb
    rw [lookupStat, this,
      find?_key_of_nodup (by simpa using hnodup) (by simpa using List.mem_reverse.mpr hmem)]

/-- **C10**: on a store with no entry for the name, `removeModifier`
returns `false`, `clearModifiers` returns `0` (neither throws), while
`set`, `modify`, and `addModifier` throw a `TypeError` naming the stat. -/
theorem claim_C10 (s : Store) (n src : String) (v δ : ℚ) (mi : ModifierInput)
    (h : lookupStat s n = none) :
    removeModifier s n src = (s, false, []) ∧
    clearModifiers s (some n) = (s, 0, []) ∧
    set s n v = .error (.typeError ("Cannot set non-existent stat: \"" ++ n ++ "\"")) ∧
    modify s n δ =
      .error (.typeError ("Cannot modify non-existent stat: \"" ++ n ++ "\"")) ∧
    addModifier s n mi =
      .error (.typeError ("Cannot add modifier to non-existent stat: \"" ++ n ++ "\"")) := by
  refine ⟨?_, ?_, ?_, ?_, ?_⟩
  · unfold removeModifier
    rw [h]
  · show (match lookupStat s n with
      | none => (s, 0, [])
      | some d =>
        let oldV := calcEffective s n
        let derivedOld := captureDerived s
        let count := d.modifiers.length
        let s' := updateStat s n { d with modifiers := [] }
        let newV := calcEffective s' n
        let events :=
          if oldV ≠ newV then
            if 0 < count then
              ChangeEvent.mk n oldV newV false true :: derivedEvents derivedOld s'
            else []
          else []
        (s', count, events)) = (s, 0, [])
    rw [h]
  · unfold set
    rw [h]
  · unfold modify
    rw [h]
  · unfold addModifier
    rw [h]

/-- Witness for C10 at the empty store and the name `missing`. -/
theorem claim_C10_witness :
    removeModifier ⟨[]⟩ "missing" "x" = (⟨[]⟩, false, []) ∧
    clearModifiers ⟨[]⟩ (some "missing") = (⟨[]⟩, 0, []) ∧
    set ⟨[]⟩ "missing" 1 =
      .error (.typeError ("Cannot set non-existent stat: \"missing\"")) ∧
    modify ⟨[]⟩ "missing" 1 =
      .error (.typeError ("Cannot modify non-existent stat: \"missing\"")) ∧
    addModifier ⟨[]⟩ "missing" ⟨1, "x", none, DurationInput.omitted⟩ =
      .error (.typeError ("Cannot add modifier to non-existent stat: \"missing\"")) :=
  claim_C10 ⟨[]⟩ "missing" "x" 1 1 ⟨1, "x", none, DurationInput.omitted⟩ rfl

theorem mapSet_mem {l : List (String × StatData)} {k : String} {v : StatData}
    {q : String × StatData} (hq : q ∈ mapSet l k v) : q = (k, v) ∨ q ∈ l := by
  unfold mapSet at hq
  split at hq
  · rcases List.mem_map.mp hq with ⟨p, hp, hpq⟩
    by_cases h : p.1 = k
    · exact Or.inl (by rw [← hpq, if_pos (show (p.1 == k) = true by simpa using h)])
    · refine Or.inr ?_
      rw [← hpq, if_neg (show ¬(p.1 == k) = true by simpa using h)]
      exact hp
  · rcases List.mem_append.mp hq with h | h
    · exact Or.inr h
    · exact Or.inl (List.mem_singleton.mp h)

theorem updateStat_mem {s : Store} {n : String} {d : StatData}
    {q : String × StatData} (hq : q ∈ (updateStat s n d).stats) :
    q = (n, d) ∨ q ∈ s.stats := by
  rcases List.mem_map.mp hq with ⟨p, hp, hpq⟩
  by_cases h : p.1 = n
  · exact Or.inl (by rw [← hpq, if_pos (show (p.1 == n) = true by simpa using h)])
  · refine Or.inr ?_
    rw [← hpq, if_neg (show ¬(p.1 == n) = true by simpa using h)]
    exact hp

theorem lookup_pair_mem {s : Store} {n : String} {d : StatData}
    (h : lookupStat s n = some d) : ∃ p ∈ s.stats, p.2 = d := by
  unfold lookupStat findVal at h
  cases hf : s.stats.find? (fun p => p.1 == n) with
  | none => rw [hf] at h; cases h
  | some p =>
    rw [hf] at h
    exact ⟨p, List.mem_of_find?_eq_some hf, Option.some.inj h⟩

theorem replaceFirst_sources_of_mem {l : List InternalModifier} {m m0 : InternalModifier}
    (h0 : m0 ∈ l) (hs : m0.source = m.source) :
    (replaceFirst l m).map (fun x => x.source) = l.map (fun x => x.source) := by
  induction l with
  | nil => cases h0
  | cons x xs ih =>
    by_cases h : x.source = m.source
    · simp only [replaceFirst,
        if_pos (show (x.source == m.source) = true by simpa using h)]
      simp [h]
    · simp only [replaceFirst,
        if_neg (show ¬(x.source == m.source) = true by simpa using h)]
      have h0' : m0 ∈ xs := by
        cases List.mem_cons.mp h0 with
        | inl he => exact absurd (he ▸ hs) h
        | inr hm => exact hm
      simp [ih h0']

theorem replaceFirst_sources_subset {l : List InternalModifier} {m : InternalModifier}
    {s : String} (h : s ∈ (replaceFirst l m).map (fun x => x.source)) :
    s ∈ l.map (fun x => x.source) ∨ s = m.source := by
  induction l with
  | nil =>
    simp only [replaceFirst, List.map_cons, List.map_nil] at h
    exact Or.inr (by simpa using h)
  | cons x xs ih =>
    by_cases hx : x.source = m.source
    · simp only [replaceFirst,
        if_pos (show (x.source == m.source) = true by simpa using hx)] at h
      simp only [List.map_cons, List.mem_cons] at h
      cases h with
      | inl hh => exact Or.inr hh
      | inr hh => exact Or.inl (List.mem_cons.mpr (Or.inr hh))
    · simp only [replaceFirst,
        if_neg (show ¬(x.source == m.source) = true by simpa using hx)] at h
      simp only [List.map_cons, List.mem_cons] at h
      cases h with
      | inl hh => exact Or.inl (List.mem_cons.mpr (Or.inl hh))
      | inr hh =>
        cases ih hh with
        | inl h3 => exact Or.inl (List.mem_cons.mpr (Or.inr h3))
        | inr h3 => exact Or.inr h3

theorem replaceFirst_sources_nodup {l : List InternalModifier} {m : InternalModifier}
    (h : (l.map (fun x => x.source)).Nodup) :
    ((replaceFirst l m).map (fun x => x.source)).Nodup := by
  induction l with
  | nil => simp [replaceFirst]
  | cons x xs ih =>
    simp only [List.map_cons, List.nodup_cons] at h
    by_cases hx : x.source = m.source
    · simp only [replaceFirst,
        if_pos (show (x.source == m.source) = true by simpa using hx)]
      simp only [List.map_cons, List.nodup_cons]
      exact ⟨by rw [← hx]; exact h.1, h.2⟩
    · simp only [replaceFirst,
        if_neg (show ¬(x.source == m.source) = true by simpa using hx)]
      simp only [List.map_cons, List.nodup_cons]
      refine ⟨?_, ih h.2⟩
      intro hmem
      cases replaceFirst_sources_subset hmem with
      | inl hh => exact h.1 hh
      | inr hh => exact hx hh

theorem tickDec_source (m : InternalModifier) : (tickDec m).source = m.source := by
  cases h : m.remainingDuration <;> simp [tickDec, h]

theorem tickEntry_sources_nodup {d : StatData}
    (h : (d.modifiers.map (fun m => m.source)).Nodup) :
    ((tickEntry d).1.modifiers.map (fun m => m.source)).Nodup := by
  simp only [tickEntry]
  have h1 : ((d.modifiers.map tickDec).filter
      (fun m => !((d.modifiers.map tickDec).filterMap tickExpiredSel).contains m.source)).Sublist
      (d.modifiers.map tickDec) := List.filter_sublist _
  have h2 := h1.map (fun m => m.source)
  rw [List.map_map] at h2
  rw [show ((fun (m : InternalModifier) => m.source) ∘ tickDec) =
      (fun (m : InternalModifier) => m.source) from funext tickDec_source] at h2
  exact h.sublist h2

theorem buildFold_entries (defs : List (String × StatDefinition)) :
    ∀ (acc l : List (String × StatData)),
      (∀ q ∈ acc, q.2.modifiers = []) → defs.foldlM buildStep acc = .ok l →
      ∀ q ∈ l, q.2.modifiers = [] := by
  induction defs with
  | nil =>
    intro acc l hacc h
    simp only [List.foldlM] at h
    cases h
    exact hacc
  | cons p rest ih =>
    intro acc l hacc h
    simp only [List.foldlM_cons] at h
    cases hstep : buildStep acc p with
    | error e =>
      rw [hstep] at h
      simp [Bind.bind, Except.bind] at h
    | ok acc' =>
      rw [hstep] at h
      simp only [Bind.bind, Except.bind] at h
      refine ih acc' l ?_ h
      intro q hq
      rw [buildStep_ok_val hstep] at hq
      cases mapSet_mem hq with
      | inl he =>
        rw [he]
        rfl
      | inr hm => exact hacc q hm

theorem derivedEvents_stat_mem {s s' : Store} {e : ChangeEvent}
    (he : e ∈ derivedEvents (captureDerived s) s') :
    ∃ q ∈ s.stats, q.2.isDerived = true ∧ e.stat = q.1 := by
  unfold derivedEvents at he
  rcases List.mem_filterMap.mp he with ⟨p, hp, hpe⟩
  unfold captureDerived at hp
  rcases List.mem_map.mp hp with ⟨q, hq, hqp⟩
  have hqf := List.mem_filter.mp hq
  refine ⟨q, hqf.1, by simpa using hqf.2, ?_⟩
  simp only [ne_eq] at hpe
  split at hpe
  · have := Option.some.inj hpe
    rw [← this, ← hqp]
  · cases hpe

theorem findSource_replaceFirst (l : List InternalModifier) (m : InternalModifier) :
    (replaceFirst l m).find? (fun x => x.source == m.source) = some m := by
  induction l with
  | nil =>
    simp only [replaceFirst]
    exact List.find?_cons_of_pos _ (by simp)
  | cons x xs ih =>
    by_cases h : x.source = m.source
    · simp only [replaceFirst, if_pos (show (x.source == m.source) = true by simpa using h)]
      exact List.find?_cons_of_pos _ (by simp)
    · simp only [replaceFirst,
        if_neg (show ¬(x.source == m.source) = true by simpa using h)]
      rw [List.find?_cons_of_neg _ (by simpa using h)]
      exact ih

theorem tickExpiredSel_none_or_source (m : InternalModifier) :
    tickExpiredSel m = none ∨ tickExpiredSel m = some m.source := by
  unfold tickExpiredSel
  cases m.remainingDuration with
  | inf => exact Or.inl rfl
  | fin k =>
    by_cases h : k ≤ 0
    · exact Or.inr (by simp [h])
    · exact Or.inl (by simp [h])

theorem tick_expired_sources_subset (mods : List InternalModifier) (s : String)
    (h : s ∈ (mods.map tickDec).filterMap tickExpiredSel) :
    s ∈ mods.map (fun m => m.source) := by
  induction mods with
  | nil => simp at h
  | cons x xs ih =>
    simp only [List.map_cons, List.filterMap_cons] at h
    cases hsel : tickExpiredSel (tickDec x) with
    | none =>
      rw [hsel] at h
      exact List.mem_cons.mpr (Or.inr (ih h))
    | some y =>
      rw [hsel] at h
      have hy : y = x.source := by
        cases tickExpiredSel_none_or_source (tickDec x) with
        | inl hc => rw [hc] at hsel; cases hsel
        | inr hc =>
          rw [hc] at hsel
          rw [tickDec_source] at hsel
          exact (Option.some.inj hsel).symm
      cases List.mem_cons.mp h with
      | inl hh => exact List.mem_cons.mpr (Or.inl (hh.trans hy))
      | inr hh => exact List.mem_cons.mpr (Or.inr (ih hh))

theorem tickExpiredSel_tickDec_eq (m : InternalModifier) :
    tickExpiredSel (tickDec m) =
      (match m.remainingDuration with
       | Dur.inf => none
       | Dur.fin r => if r ≤ 1 then some m.source else none) := by
  cases hr : m.remainingDuration with
  | inf => simp [tickDec, tickExpiredSel, hr]
  | fin r =>
    simp only [tickDec, hr, tickExpiredSel]
    by_cases h1 : r - 1 ≤ 0
    · rw [if_pos h1, if_pos (by linarith)]
    · rw [if_neg h1, if_neg (by intro hh; exact h1 (by linarith))]

/-- With pairwise-distinct sources, a modifier's source appears in a
tick's expired list exactly when its remaining duration was a finite
`r ≤ 1`. -/
theorem tick_expired_mem_iff (mods : List InternalModifier)
    (hnd : (mods.map (fun m => m.source)).Nodup) (m : InternalModifier) (hm : m ∈ mods) :
    m.source ∈ (mods.map tickDec).filterMap tickExpiredSel ↔
      ∃ r, m.remainingDuration = Dur.fin r ∧ r ≤ 1 := by
  induction mods with
  | nil => cases hm
  | cons x xs ih =>
    simp only [List.map_cons, List.nodup_cons] at hnd
    simp only [List.map_cons, List.filterMap_cons]
    cases List.mem_cons.mp hm with
    | inl heq =>
      subst heq
      rw [tickExpiredSel_tickDec_eq]
      cases hr : m.remainingDuration with
      | inf =>
        simp only []
        constructor
        · intro hmem
          exact absurd (tick_expired_sources_subset xs m.source hmem) hnd.1
        · rintro ⟨r, hr', _⟩
          cases hr'
      | fin r =>
        by_cases h1 : r ≤ 1
        · simp only [if_pos h1]
          exact ⟨fun _ => ⟨r, rfl, h1⟩, fun _ => List.mem_cons_self _ _⟩
        · simp only [if_neg h1]
          constructor
          · intro hmem
            exact absurd (tick_expired_sources_subset xs m.source hmem) hnd.1
          · rintro ⟨r', hr', hle⟩
            cases hr'
            exact absurd hle h1
    | inr hmem' =>
      have hxs : x.source ≠ m.source := by
        intro hh
        exact hnd.1 (hh ▸ List.mem_map.mpr ⟨m, hmem', rfl⟩)
      cases hsel : tickExpiredSel (tickDec x) with
      | none => exact ih hnd.2 hmem'
      | some y =>
        have hy : y = x.source := by
          cases tickExpiredSel_none_or_source (tickDec x) with
          | inl hc => rw [hc] at hsel; cases hsel
          | inr hc =>
            rw [hc] at hsel
            rw [tickDec_source] at hsel
            exact (Option.some.inj hsel).symm
        subst hy
        simp only [List.mem_cons]
        constructor
        · intro h
          cases h with
          | inl h => exact absurd h.symm hxs
          | inr h => exact (ih hnd.2 hmem').mp h
        · intro hq
          exact Or.inr ((ih hnd.2 hmem').mpr hq)

/-- **C4**: `addModifier` normalizes the duration to a remaining tick
count — omitted and `"permanent"` give `Infinity` (which
`getRemainingDuration` reports), `"temporary"` gives 1, an explicit `n`
gives `n` — and each `tick` decrements every finite remaining count by 1,
removing the modifier once it reaches `≤ 0`; a duration-3 modifier
survives two `tick`s and is removed by the third, whose expired list
contains its source (the second's does not). -/
theorem claim_C4 :
    (∀ (s : Store) (n : String) (d : StatData) (mi : ModifierInput) (s' : Store)
        (ev : List ChangeEvent),
      lookupStat s n = some d → addModifier s n mi = .ok (s', ev) →
      getRemainingDuration s' n mi.source = some (normalizeDuration mi.duration).2) ∧
    normalizeDuration DurationInput.omitted = (Dur.inf, Dur.inf) ∧
    normalizeDuration DurationInput.permanent = (Dur.inf, Dur.inf) ∧
    normalizeDuration DurationInput.temporary = (Dur.fin 1, Dur.fin 1) ∧
    (∀ k : ℚ, normalizeDuration (DurationInput.ticks k) = (Dur.fin k, Dur.fin k)) ∧
    (∀ (d : StatData) (m : InternalModifier),
      m ∈ d.modifiers → (d.modifiers.map (fun x => x.source)).Nodup →
      (m.remainingDuration = Dur.inf →
        m ∈ (tickEntry d).1.modifiers ∧ m.source ∉ (tickEntry d).2) ∧
      (∀ r, m.remainingDuration = Dur.fin r →
        (r ≤ 1 → m.source ∈ (tickEntry d).2 ∧
          ∀ x ∈ (tickEntry d).1.modifiers, x.source ≠ m.source) ∧
        (1 < r → { m with remainingDuration := Dur.fin (r - 1) } ∈ (tickEntry d).1.modifiers ∧
          m.source ∉ (tickEntry d).2))) ∧
    (c4Scenario = .ok ⟨[("a", ⟨10, none, none,
        [⟨5, "buff", ModType.flat, Dur.fin 3, Dur.fin 3⟩], false⟩)]⟩ ∧
      tick ⟨[("a", ⟨10, none, none,
        [⟨5, "buff", ModType.flat, Dur.fin 3, Dur.fin 3⟩], false⟩)]⟩ =
        (⟨[("a", ⟨10, none, none,
          [⟨5, "buff", ModType.flat, Dur.fin 3, Dur.fin 2⟩], false⟩)]⟩, [], []) ∧
      tick ⟨[("a", ⟨10, none, none,
        [⟨5, "buff", ModType.flat, Dur.fin 3, Dur.fin 2⟩], false⟩)]⟩ =
        (⟨[("a", ⟨10, none, none,
          [⟨5, "buff", ModType.flat, Dur.fin 3, Dur.fin 1⟩], false⟩)]⟩, [], []) ∧
      tick ⟨[("a", ⟨10, none, none,
        [⟨5, "buff", ModType.flat, Dur.fin 3, Dur.fin 1⟩], false⟩)]⟩ =
        (⟨[("a", ⟨10, none, none, [], false⟩)]⟩, ["buff"],
          [⟨"a", 15, 10, false, true⟩])) := by
  refine ⟨?_, rfl, rfl, rfl, fun k => rfl, ?_, ?_, ?_, ?_, ?_⟩
  · intro s n d mi s' ev hl h
    simp only [addModifier, hl] at h
    cases hd : d.isDerived with
    | true =>
      rw [hd] at h
      simp at h
    | false =>
      rw [hd] at h
      simp only [if_false, Bool.false_eq_true] at h
      injection h with h1
      injection h1 with hs _
      subst hs
      rw [getRemainingDuration, lookupStat_update_self s n _ (by rw [hl]; rfl)]
      show Option.map (fun m => m.remainingDuration)
          ((replaceFirst d.modifiers
            ⟨mi.value, mi.source, mi.type.getD ModType.flat,
              (normalizeDuration mi.duration).1,
              (normalizeDuration mi.duration).2⟩).find?
            (fun m => m.source == mi.source)) =
        some (normalizeDuration mi.duration).2
      have hf : (replaceFirst d.modifiers
          ⟨mi.value, mi.source, mi.type.getD ModType.flat,
            (normalizeDuration mi.duration).1, (normalizeDuration mi.duration).2⟩).find?
            (fun x => x.source == mi.source) =
          some ⟨mi.value, mi.source, mi.type.getD ModType.flat,
            (normalizeDuration mi.duration).1, (normalizeDuration mi.duration).2⟩ :=
        findSource_replaceFirst d.modifiers
          ⟨mi.value, mi.source, mi.type.getD ModType.flat,
            (normalizeDuration mi.duration).1, (normalizeDuration mi.duration).2⟩
      rw [hf]
      rfl
  · intro d m hm hnd
    constructor
    · intro hinf
      have hdec : tickDec m = m := by simp [tickDec, hinf]
      have hne : m.source ∉ (d.modifiers.map tickDec).filterMap tickExpiredSel := by
        rw [tick_expired_mem_iff d.modifiers hnd m hm]
        rintro ⟨r, hr, _⟩
        rw [hinf] at hr
        cases hr
      constructor
      · simp only [tickEntry]
        refine List.mem_filter.mpr ⟨?_, ?_⟩
        · rw [← hdec]
          exact List.mem_map.mpr ⟨m, hm, rfl⟩
        · simpa using hne
      · simpa [tickEntry] using hne
    · intro r hr
      constructor
      · intro hle
        have hmem : m.source ∈ (d.modifiers.map tickDec).filterMap tickExpiredSel :=
          (tick_expired_mem_iff d.modifiers hnd m hm).mpr ⟨r, hr, hle⟩
        constructor
        · simpa [tickEntry] using hmem
        · intro x hx hsrc
          simp only [tickEntry] at hx
          have hcond := (List.mem_filter.mp hx).2
          rw [hsrc] at hcond
          simp only [Bool.not_eq_true'] at hcond
          have hcond' : List.elem m.source
              (List.filterMap tickExpiredSel (List.map tickDec d.modifiers)) = false := hcond
          have h1 : List.elem m.source
              (List.filterMap tickExpiredSel (List.map tickDec d.modifiers)) = true :=
            List.elem_iff.mpr hmem
          rw [hcond'] at h1
          exact absurd h1 (by decide)
      · intro hgt
        have hne : m.source ∉ (d.modifiers.map tickDec).filterMap tickExpiredSel := by
          rw [tick_expired_mem_iff d.modifiers hnd m hm]
          rintro ⟨r', hr', hle⟩
          rw [hr] at hr'
          cases hr'
          exact absurd hle (by linarith)
        constructor
        · simp only [tickEntry]
          refine List.mem_filter.mpr ⟨?_, ?_⟩
          · refine List.mem_map.mpr ⟨m, hm, ?_⟩
            simp [tickDec, hr]
          · simpa [tickDec_source] using hne
        · simpa [tickEntry] using hne
  · have h0 : createStatBlock [("a", { base := 10 })] none =
        .ok ⟨[("a", ⟨10, none, none, [], false⟩)]⟩ := by
      norm_num [createStatBlock, buildStats, buildStep, defEntry, mapSet, clampValue,
        Bind.bind, Except.bind, pure, Except.pure]
    have h1 : addedStore ⟨[("a", ⟨10, none, none, [], false⟩)]⟩ "a"
        ⟨5, "buff", some ModType.flat, DurationInput.ticks 3⟩ =
        .ok ⟨[("a", ⟨10, none, none,
          [⟨5, "buff", ModType.flat, Dur.fin 3, Dur.fin 3⟩], false⟩)]⟩ := by
      norm_num +decide [addedStore, addModifier, lookupStat, findVal, updateStat,
        calcEffective, effEntry, pipelineValue, captureDerived, derivedEvents,
        normalizeDuration, replaceFirst, modType_beq_eq_decide, List.find?,
        Except.map]
    rw [c4Scenario, h0]
    simp only [Bind.bind, Except.bind]
    exact h1
  · norm_num +decide [tick, tickEntry, tickDec, tickExpiredSel, captureDerived,
      derivedEvents, effEntry, pipelineValue, modType_beq_eq_decide, Function.comp,
      List.filterMap_cons, List.foldl, List.filter]
  · norm_num +decide [tick, tickEntry, tickDec, tickExpiredSel, captureDerived,
      derivedEvents, effEntry, pipelineValue, modType_beq_eq_decide, Function.comp,
      List.filterMap_cons, List.foldl, List.filter]
  · norm_num +decide [tick, tickEntry, tickDec, tickExpiredSel, captureDerived,
      derivedEvents, effEntry, pipelineValue, modType_beq_eq_decide, Function.comp,
      List.filterMap_cons, List.foldl, List.filter]

/-- Witness for C4's hypothesis-carrying parts: adding a duration-3
modifier to a fresh one-stat store yields remaining duration 3, and the
tick facts hold for that store's single modifier. -/
theorem claim_C4_witness :
    (∃ s' ev, addModifier (⟨[("a", ⟨10, none, none, [], false⟩)]⟩ : Store) "a"
        ⟨5, "buff", some ModType.flat, DurationInput.ticks 3⟩ = .ok (s', ev) ∧
      getRemainingDuration s' "a" "buff" =
        some (normalizeDuration (DurationInput.ticks 3)).2) ∧
    (⟨5, "buff", ModType.flat, Dur.fin 3, Dur.fin (3 - 1)⟩ : InternalModifier) ∈
      (tickEntry ⟨10, none, none,
        [⟨5, "buff", ModType.flat, Dur.fin 3, Dur.fin 3⟩], false⟩).1.modifiers := by
  constructor
  · have hadd : addModifier (⟨[("a", ⟨10, none, none, [], false⟩)]⟩ : Store) "a"
        ⟨5, "buff", some ModType.flat, DurationInput.ticks 3⟩ =
        .ok (⟨[("a", ⟨10, none, none,
          [⟨5, "buff", ModType.flat, Dur.fin 3, Dur.fin 3⟩], false⟩)]⟩,
          [⟨"a", 10, 15, false, true⟩]) := by
      norm_num +decide [addModifier, lookupStat, findVal, updateStat,
        calcEffective, effEntry, pipelineValue, captureDerived, derivedEvents,
        normalizeDuration, replaceFirst, modType_beq_eq_decide, List.find?]
    exact ⟨_, _, hadd,
      claim_C4.1 ⟨[("a", ⟨10, none, none, [], false⟩)]⟩ "a" ⟨10, none, none, [], false⟩
        ⟨5, "buff", some ModType.flat, DurationInput.ticks 3⟩
        ⟨[("a", ⟨10, none, none,
          [⟨5, "buff", ModType.flat, Dur.fin 3, Dur.fin 3⟩], false⟩)]⟩
        [⟨"a", 10, 15, false, true⟩] rfl hadd⟩
  · exact (((claim_C4.2.2.2.2.2.1 ⟨10, none, none,
      [⟨5, "buff", ModType.flat, Dur.fin 3, Dur.fin 3⟩], false⟩
      ⟨5, "buff", ModType.flat, Dur.fin 3, Dur.fin 3⟩
      (List.mem_singleton.mpr rfl) (by simp)).2 3 rfl).2 (by norm_num)).1

/-- **C1**: for every non-derived stat present in a store, `get` returns
`(base + Σ flat modifier values) × Π multiply modifier values`, with all
flats summed before any multiply is applied (the multiplies fold
sequentially over the list in insertion order); concretely, base 10 with
flat +5, flat +3, multiply ×2, multiply ×1.5 added in that order yields
54. -/
theorem claim_C1 :
    (∀ (s : Store) (n : String) (d : StatData),
      lookupStat s n = some d → d.isDerived = false →
      get s n = some ((d.base +
          ((d.modifiers.filter (fun m => m.type == ModType.flat)).map
            (fun m => m.value)).sum) *
        ((d.modifiers.filter (fun m => m.type == ModType.multiply)).map
          (fun m => m.value)).prod)) ∧
    c1Scenario.map (fun s => get s "strength") = .ok (some 54) := by
  constructor
  · intro s n d hl _
    simp [get, hl, calcEffective, effEntry, pipelineValue_eq]
  · have h0 : createStatBlock [("strength", { base := 10 })] none =
        .ok ⟨[("strength", ⟨10, none, none, [], false⟩)]⟩ := by
      norm_num [createStatBlock, buildStats, buildStep, defEntry, mapSet, clampValue,
        Bind.bind, Except.bind, pure, Except.pure]
    have h1 : addedStore ⟨[("strength", ⟨10, none, none, [], false⟩)]⟩ "strength"
        ⟨5, "f1", some ModType.flat, DurationInput.omitted⟩ =
        .ok ⟨[("strength", ⟨10, none, none,
          [⟨5, "f1", ModType.flat, Dur.inf, Dur.inf⟩], false⟩)]⟩ := by
      norm_num +decide [addedStore, addModifier, lookupStat, findVal, updateStat,
        calcEffective, effEntry, pipelineValue, captureDerived, derivedEvents,
        normalizeDuration, replaceFirst, modType_beq_eq_decide, List.find?,
        Except.map]
    have h2 : addedStore ⟨[("strength", ⟨10, none, none,
        [⟨5, "f1", ModType.flat, Dur.inf, Dur.inf⟩], false⟩)]⟩ "strength"
        ⟨3, "f2", some ModType.flat, DurationInput.omitted⟩ =
        .ok ⟨[("strength", ⟨10, none, none,
          [⟨5, "f1", ModType.flat, Dur.inf, Dur.inf⟩,
           ⟨3, "f2", ModType.flat, Dur.inf, Dur.inf⟩], false⟩)]⟩ := by
      norm_num +decide [addedStore, addModifier, lookupStat, findVal, updateStat,
        calcEffective, effEntry, pipelineValue, captureDerived, derivedEvents,
        normalizeDuration, replaceFirst, modType_beq_eq_decide, List.find?,
        Except.map]
    have h3 : addedStore ⟨[("strength", ⟨10, none, none,
        [⟨5, "f1", ModType.flat, Dur.inf, Dur.inf⟩,
         ⟨3, "f2", ModType.flat, Dur.inf, Dur.inf⟩], false⟩)]⟩ "strength"
        ⟨2, "m1", some ModType.multiply, DurationInput.omitted⟩ =
        .ok ⟨[("strength", ⟨10, none, none,
          [⟨5, "f1", ModType.flat, Dur.inf, Dur.inf⟩,
           ⟨3, "f2", ModType.flat, Dur.inf, Dur.inf⟩,
           ⟨2, "m1", ModType.multiply, Dur.inf, Dur.inf⟩], false⟩)]⟩ := by
      norm_num +decide [addedStore, addModifier, lookupStat, findVal, updateStat,
        calcEffective, effEntry, pipelineValue, captureDerived, derivedEvents,
        normalizeDuration, replaceFirst, modType_beq_eq_decide, List.find?,
        Except.map]
    have h4 : addedStore ⟨[("strength", ⟨10, none, none,
        [⟨5, "f1", ModType.flat, Dur.inf, Dur.inf⟩,
         ⟨3, "f2", ModType.flat, Dur.inf, Dur.inf⟩,
         ⟨2, "m1", ModType.multiply, Dur.inf, Dur.inf⟩], false⟩)]⟩ "strength"
        ⟨3/2, "m2", some ModType.multiply, DurationInput.omitted⟩ =
        .ok ⟨[("strength", ⟨10, none, none,
          [⟨5, "f1", ModType.flat, Dur.inf, Dur.inf⟩,
           ⟨3, "f2", ModType.flat, Dur.inf, Dur.inf⟩,
           ⟨2, "m1", ModType.multiply, Dur.inf, Dur.inf⟩,
           ⟨3/2, "m2", ModType.multiply, Dur.inf, Dur.inf⟩], false⟩)]⟩ := by
      norm_num +decide [addedStore, addModifier, lookupStat, findVal, updateStat,
        calcEffective, effEntry, pipelineValue, captureDerived, derivedEvents,
        normalizeDuration, replaceFirst, modType_beq_eq_decide, List.find?,
        Except.map]
    have hget : get (⟨[("strength", ⟨10, none, none,
        [⟨5, "f1", ModType.flat, Dur.inf, Dur.inf⟩,
         ⟨3, "f2", ModType.flat, Dur.inf, Dur.inf⟩,
         ⟨2, "m1", ModType.multiply, Dur.inf, Dur.inf⟩,
         ⟨3/2, "m2", ModType.multiply, Dur.inf, Dur.inf⟩], false⟩)]⟩ : Store)
        "strength" = some 54 := by
      norm_num +decide [get, lookupStat, findVal, calcEffective, effEntry,
        pipelineValue, modType_beq_eq_decide, List.find?]
    rw [c1Scenario, h0]
    simp only [Bind.bind, Except.bind]
    rw [h1]
    simp only [Bind.bind, Except.bind]
    rw [h2]
    simp only [Bind.bind, Except.bind]
    rw [h3]
    simp only [Bind.bind, Except.bind]
    rw [h4, Except.map, hget]

/-- Witness for C1's universal part at a one-stat store with no
modifiers. -/
theorem claim_C1_witness :
    get (⟨[("a", ⟨7, none, none, [], false⟩)]⟩ : Store) "a" =
      some ((7 +
          ((([] : List InternalModifier).filter (fun m => m.type == ModType.flat)).map
            (fun m => m.value)).sum) *
        ((([] : List InternalModifier).filter (fun m => m.type == ModType.multiply)).map
          (fun m => m.value)).prod) :=
  claim_C1.1 ⟨[("a", ⟨7, none, none, [], false⟩)]⟩ "a" ⟨7, none, none, [], false⟩ rfl rfl

/-- **C2**: for a stat defined with both bounds and `min ≤ max`, the base
lies in `[min, max]` after construction and after every `set`/`modify`
(the written base is clamped); the effective value is not re-clamped —
concretely, `hp` bounded to `[0, 10]` with a flat +100 modifier reads
base 10 but effective 110. -/
theorem claim_C2 :
    (∀ (defs : List (String × StatDefinition)) (s0 : Store) (n : String)
        (dfn : StatDefinition) (lo hi : ℚ),
      createStatBlock defs none = .ok s0 → (defs.map Prod.fst).Nodup →
      (n, dfn) ∈ defs → dfn.min = some lo → dfn.max = some hi → lo ≤ hi →
      ∃ b, getBase s0 n = some b ∧ lo ≤ b ∧ b ≤ hi) ∧
    (∀ (s : Store) (n : String) (d : StatData) (v : ℚ) (s' : Store) (b : ℚ)
        (ev : List ChangeEvent) (lo hi : ℚ),
      lookupStat s n = some d → d.min = some lo → d.max = some hi → lo ≤ hi →
      set s n v = .ok (s', b, ev) →
      getBase s' n = some b ∧ lo ≤ b ∧ b ≤ hi) ∧
    (∀ (s : Store) (n : String) (d : StatData) (δ : ℚ) (s' : Store) (b : ℚ)
        (ev : List ChangeEvent) (lo hi : ℚ),
      lookupStat s n = some d → d.min = some lo → d.max = some hi → lo ≤ hi →
      modify s n δ = .ok (s', b, ev) →
      getBase s' n = some b ∧ lo ≤ b ∧ b ≤ hi) ∧
    c2Scenario.map (fun s => (get s "hp", getBase s "hp")) = .ok (some 110, some 10) := by
  refine ⟨?_, ?_, ?_, ?_⟩
  · intro defs s0 n dfn lo hi h hnodup hmem hlo hhi hle
    have hl := createStatBlock_none_lookup h hnodup hmem
    refine ⟨clampValue dfn.base dfn.min dfn.max, ?_, ?_, ?_⟩
    · rw [getBase, hl]
      rfl
    · rw [hlo, hhi]
      exact (clampValue_mem dfn.base lo hi hle).1
    · rw [hlo, hhi]
      exact (clampValue_mem dfn.base lo hi hle).2
  · intro s n d v s' b ev lo hi hl hlo hhi hle h
    simp only [set, hl] at h
    cases hd : d.isDerived with
    | true =>
      rw [hd] at h
      simp at h
    | false =>
      rw [hd] at h
      simp only [if_false, Bool.false_eq_true] at h
      injection h with h1
      injection h1 with hs hbe
      injection hbe with hb _
      subst hs hb
      refine ⟨?_, ?_, ?_⟩
      · rw [getBase, lookupStat_update_self s n _ (by rw [hl]; rfl)]
        rfl
      · rw [hlo, hhi]
        exact (clampValue_mem v lo hi hle).1
      · rw [hlo, hhi]
        exact (clampValue_mem v lo hi hle).2
  · intro s n d δ s' b ev lo hi hl hlo hhi hle h
    simp only [modify, hl] at h
    cases hd : d.isDerived with
    | true =>
      rw [hd] at h
      simp at h
    | false =>
      rw [hd] at h
      simp only [if_false, Bool.false_eq_true] at h
      injection h with h1
      injection h1 with hs hbe
      injection hbe with hb _
      subst hs hb
      refine ⟨?_, ?_, ?_⟩
      · rw [getBase, lookupStat_update_self s n _ (by rw [hl]; rfl)]
        rfl
      · rw [hlo, hhi]
        exact (clampValue_mem (d.base + δ) lo hi hle).1
      · rw [hlo, hhi]
        exact (clampValue_mem (d.base + δ) lo hi hle).2
  · have h0 : createStatBlock [("hp", { base := 10, min := some 0, max := some 10 })]
        none = .ok ⟨[("hp", ⟨10, some 0, some 10, [], false⟩)]⟩ := by
      norm_num [createStatBlock, buildStats, buildStep, defEntry, mapSet, clampValue,
        Bind.bind, Except.bind, pure, Except.pure]
    have h1 : addedStore ⟨[("hp", ⟨10, some 0, some 10, [], false⟩)]⟩ "hp"
        ⟨100, "buff", some ModType.flat, DurationInput.omitted⟩ =
        .ok ⟨[("hp", ⟨10, some 0, some 10,
          [⟨100, "buff", ModType.flat, Dur.inf, Dur.inf⟩], false⟩)]⟩ := by
      norm_num +decide [addedStore, addModifier, lookupStat, findVal, updateStat,
        calcEffective, effEntry, pipelineValue, captureDerived, derivedEvents,
        normalizeDuration, replaceFirst, modType_beq_eq_decide, List.find?,
        Except.map]
    have hv : get (⟨[("hp", ⟨10, some 0, some 10,
        [⟨100, "buff", ModType.flat, Dur.inf, Dur.inf⟩], false⟩)]⟩ : Store) "hp" =
        some 110 := by
      norm_num +decide [get, lookupStat, findVal, calcEffective, effEntry,
        pipelineValue, modType_beq_eq_decide, List.find?]
    have hb : getBase (⟨[("hp", ⟨10, some 0, some 10,
        [⟨100, "buff", ModType.flat, Dur.inf, Dur.inf⟩], false⟩)]⟩ : Store) "hp" =
        some 10 := by
      norm_num [getBase, lookupStat, findVal, List.find?]
    rw [c2Scenario, h0]
    simp only [Bind.bind, Except.bind]
    rw [h1, Except.map, hv, hb]

/-- Witness for C2's hypothesis-carrying parts at a `[0, 10]`-bounded
stat: construction clamps 99 to 10; `set 42` and `modify 42` clamp back
into bounds. -/
theorem claim_C2_witness :
    (∃ b, getBase (⟨[("hp", ⟨10, some 0, some 10, [], false⟩)]⟩ : Store) "hp" = some b ∧
      0 ≤ b ∧ b ≤ 10) ∧
    (∃ s' b ev, set (⟨[("hp", ⟨10, some 0, some 10, [], false⟩)]⟩ : Store) "hp" 42 =
        .ok (s', b, ev) ∧
      getBase s' "hp" = some b ∧ 0 ≤ b ∧ b ≤ 10) := by
  constructor
  · exact claim_C2.1 [("hp", { base := 10, min := some 0, max := some 10 })]
      ⟨[("hp", ⟨10, some 0, some 10, [], false⟩)]⟩ "hp"
      { base := 10, min := some 0, max := some 10 } 0 10
      (by norm_num [createStatBlock, buildStats, buildStep, defEntry, mapSet,
        clampValue, Bind.bind, Except.bind, pure, Except.pure])
      (by simp) (by simp) rfl rfl (by norm_num)
  · have hs : set (⟨[("hp", ⟨10, some 0, some 10, [], false⟩)]⟩ : Store) "hp" 42 =
        .ok (⟨[("hp", ⟨10, some 0, some 10, [], false⟩)]⟩, 10, []) := by
      norm_num +decide [set, lookupStat, findVal, updateStat, calcEffective, effEntry,
        pipelineValue, captureDerived, derivedEvents, clampValue, List.find?,
        modType_beq_eq_decide]
    exact ⟨_, _, _, hs,
      claim_C2.2.1 ⟨[("hp", ⟨10, some 0, some 10, [], false⟩)]⟩ "hp"
        ⟨10, some 0, some 10, [], false⟩ 42
        ⟨[("hp", ⟨10, some 0, some 10, [], false⟩)]⟩ 10 [] 0 10 rfl rfl rfl
        (by norm_num) hs⟩

/-- **C6**: at most one modifier per `(stat, source)` pair — the
pairwise-distinct-sources invariant holds after construction and is
preserved by every operation; `addModifier` with an already-present
source replaces that modifier in place (source positions unchanged, the
entry for the source now carrying the new value, type, and duration) and
fires at most one change event for the stat (never a remove-then-add
pair); adding `{value 2, source x}` then `{value 5, source x}` leaves
`getModifiers` with exactly one entry, of value 5. -/
theorem claim_C6 :
    (∀ (defs : List (String × StatDefinition)) (s0 : Store),
      createStatBlock defs none = .ok s0 → SourcesOk s0) ∧
    (∀ (s : Store) (n : String) (v : ℚ) (r : Store × ℚ × List ChangeEvent),
      SourcesOk s → set s n v = .ok r → SourcesOk r.1) ∧
    (∀ (s : Store) (n : String) (δ : ℚ) (r : Store × ℚ × List ChangeEvent),
      SourcesOk s → modify s n δ = .ok r → SourcesOk r.1) ∧
    (∀ (s : Store) (n : String) (mi : ModifierInput) (r : Store × List ChangeEvent),
      SourcesOk s → addModifier s n mi = .ok r → SourcesOk r.1) ∧
    (∀ (s : Store) (n src : String), SourcesOk s → SourcesOk (removeModifier s n src).1) ∧
    (∀ (s : Store) (o : Option String), SourcesOk s → SourcesOk (clearModifiers s o).1) ∧
    (∀ s : Store, SourcesOk s → SourcesOk (tick s).1) ∧
    (∀ (s : Store) (n : String) (d : StatData) (mi : ModifierInput)
        (m0 : InternalModifier) (s' : Store) (ev : List ChangeEvent),
      lookupStat s n = some d → m0 ∈ d.modifiers → m0.source = mi.source →
      addModifier s n mi = .ok (s', ev) →
      ∃ d', lookupStat s' n = some d' ∧
        d'.modifiers.map (fun m => m.source) = d.modifiers.map (fun m => m.source) ∧
        d'.modifiers.find? (fun m => m.source == mi.source) =
          some ⟨mi.value, mi.source, mi.type.getD ModType.flat,
            (normalizeDuration mi.duration).1, (normalizeDuration mi.duration).2⟩) ∧
    (∀ (s : Store) (n : String) (mi : ModifierInput) (s' : Store) (ev : List ChangeEvent),
      (s.stats.map Prod.fst).Nodup → addModifier s n mi = .ok (s', ev) →
      (ev.filter (fun e => e.stat == n)).length ≤ 1) ∧
    c6Scenario.map (fun s => getModifiers s "a") =
      .ok (some [⟨5, "x", ModType.flat, Dur.inf⟩]) := by
  refine ⟨?_, ?_, ?_, ?_, ?_, ?_, ?_, ?_, ?_, ?_⟩
  · intro defs s0 h
    unfold createStatBlock at h
    cases hb : buildStats defs with
    | error e =>
      rw [hb] at h
      simp [Bind.bind, Except.bind] at h
    | ok l =>
      rw [hb] at h
      simp only [Bind.bind, Except.bind] at h
      cases h
      intro p hp
      rw [buildFold_entries defs [] l (by intro q hq; cases hq) hb p hp]
      exact List.nodup_nil
  · intro s n v r hok h
    cases hl : lookupStat s n with
    | none =>
      simp only [set, hl] at h
      exact absurd h (by simp)
    | some d =>
      simp only [set, hl] at h
      cases hd : d.isDerived with
      | true =>
        rw [hd] at h
        simp at h
      | false =>
        rw [hd] at h
        simp only [if_false, Bool.false_eq_true] at h
        injection h with h1
        intro p hp
        rw [← h1] at hp
        have hp' : p ∈ (updateStat s n
            { base := clampValue v d.min d.max, min := d.min, max := d.max,
              modifiers := d.modifiers, isDerived := false }).stats := hp
        cases updateStat_mem hp' with
        | inl he =>
          rw [he]
          obtain ⟨q, hq, hq2⟩ := lookup_pair_mem hl
          have hnd := hok q hq
          rw [hq2] at hnd
          exact hnd
        | inr hm => exact hok p hm
  · intro s n δ r hok h
    cases hl : lookupStat s n with
    | none =>
      simp only [modify, hl] at h
      exact absurd h (by simp)
    | some d =>
      simp only [modify, hl] at h
      cases hd : d.isDerived with
      | true =>
        rw [hd] at h
        simp at h
      | false =>
        rw [hd] at h
        simp only [if_false, Bool.false_eq_true] at h
        injection h with h1
        intro p hp
        rw [← h1] at hp
        have hp' : p ∈ (updateStat s n
            { base := clampValue (d.base + δ) d.min d.max, min := d.min, max := d.max,
              modifiers := d.modifiers, isDerived := false }).stats := hp
        cases updateStat_mem hp' with
        | inl he =>
          rw [he]
          obtain ⟨q, hq, hq2⟩ := lookup_pair_mem hl
          have hnd := hok q hq
          rw [hq2] at hnd
          exact hnd
        | inr hm => exact hok p hm
  · intro s n mi r hok h
    cases hl : lookupStat s n with
    | none =>
      simp only [addModifier, hl] at h
      exact absurd h (by simp)
    | some d =>
      simp only [addModifier, hl] at h
      cases hd : d.isDerived with
      | true =>
        rw [hd] at h
        simp at h
      | false =>
        rw [hd] at h
        simp only [if_false, Bool.false_eq_true] at h
        injection h with h1
        intro p hp
        rw [← h1] at hp
        have hp' : p ∈ (updateStat s n
            { base := d.base, min := d.min, max := d.max,
              modifiers := replaceFirst d.modifiers
                (InternalModifier.mk mi.value mi.source (mi.type.getD ModType.flat)
                  (normalizeDuration mi.duration).1 (normalizeDuration mi.duration).2),
              isDerived := false }).stats := hp
        cases updateStat_mem hp' with
        | inl he =>
          rw [he]
          obtain ⟨q, hq, hq2⟩ := lookup_pair_mem hl
          have hnd := hok q hq
          rw [hq2] at hnd
          exact replaceFirst_sources_nodup hnd
        | inr hm => exact hok p hm
  · intro s n src hok
    cases hl : lookupStat s n with
    | none =>
      unfold removeModifier
      rw [hl]
      exact hok
    | some d =>
      have hupd : SourcesOk (updateStat s n
          { base := d.base, min := d.min, max := d.max,
            modifiers := d.modifiers.filter (fun m => m.source != src),
            isDerived := d.isDerived }) := by
        intro p hp
        cases updateStat_mem hp with
        | inl he =>
          rw [he]
          obtain ⟨q, hq, hq2⟩ := lookup_pair_mem hl
          have hnd := hok q hq
          rw [hq2] at hnd
          exact hnd.sublist ((List.filter_sublist _).map _)
        | inr hm => exact hok p hm
      simp only [removeModifier, hl]
      split
      · exact hupd
      · exact hupd
  · intro s o hok
    cases o with
    | some n =>
      cases hl : lookupStat s n with
      | none =>
        simp only [clearModifiers, hl]
        exact hok
      | some d =>
        simp only [clearModifiers, hl]
        intro p hp
        cases updateStat_mem hp with
        | inl he =>
          rw [he]
          exact List.nodup_nil
        | inr hm => exact hok p hm
    | none =>
      simp only [clearModifiers, clearModifiersAll]
      intro p hp
      rcases List.mem_map.mp hp with ⟨q, hq, hqp⟩
      rw [← hqp]
      exact List.nodup_nil
  · intro s hok
    intro p hp
    simp only [tick] at hp
    rcases List.mem_map.mp hp with ⟨q, hq, hqp⟩
    rcases List.mem_map.mp hq with ⟨q0, hq0, hq0q⟩
    rw [← hqp, ← hq0q]
    exact tickEntry_sources_nodup (hok q0 hq0)
  · intro s n d mi m0 s' ev hl hm0 hsrc h
    simp only [addModifier, hl] at h
    cases hd : d.isDerived with
    | true =>
      rw [hd] at h
      simp at h
    | false =>
      rw [hd] at h
      simp only [if_false, Bool.false_eq_true] at h
      injection h with h1
      injection h1 with hs he
      subst hs
      refine ⟨_, lookupStat_update_self s n _ (by rw [hl]; rfl), ?_, ?_⟩
      · show (replaceFirst d.modifiers
            (InternalModifier.mk mi.value mi.source (mi.type.getD ModType.flat)
              (normalizeDuration mi.duration).1 (normalizeDuration mi.duration).2)).map
              (fun m => m.source) = d.modifiers.map (fun m => m.source)
        exact replaceFirst_sources_of_mem hm0 hsrc
      · show (replaceFirst d.modifiers
            (InternalModifier.mk mi.value mi.source (mi.type.getD ModType.flat)
              (normalizeDuration mi.duration).1 (normalizeDuration mi.duration).2)).find?
              (fun m => m.source == mi.source) =
          some (InternalModifier.mk mi.value mi.source (mi.type.getD ModType.flat)
            (normalizeDuration mi.duration).1 (normalizeDuration mi.duration).2)
        exact findSource_replaceFirst d.modifiers
          (InternalModifier.mk mi.value mi.source (mi.type.getD ModType.flat)
            (normalizeDuration mi.duration).1 (normalizeDuration mi.duration).2)
  · intro s n mi s' ev hnodup h
    cases hl : lookupStat s n with
    | none =>
      simp only [addModifier, hl] at h
      exact absurd h (by simp)
    | some d =>
      simp only [addModifier, hl] at h
      cases hd : d.isDerived with
      | true =>
        rw [hd] at h
        simp at h
      | false =>
        rw [hd] at h
        simp only [if_false, Bool.false_eq_true] at h
        injection h with h1
        injection h1 with hs he
        rw [← he]
        split
        · have htail : List.filter (fun e => e.stat == n)
              (derivedEvents (captureDerived s) (updateStat s n
                { base := d.base, min := d.min, max := d.max,
                  modifiers := replaceFirst d.modifiers
                    (InternalModifier.mk mi.value mi.source (mi.type.getD ModType.flat)
                      (normalizeDuration mi.duration).1
                      (normalizeDuration mi.duration).2),
                  isDerived := false })) = [] := by
            apply List.filter_eq_nil_iff.mpr
            intro e hemem hcond
            obtain ⟨q, hq, hqder, hqstat⟩ := derivedEvents_stat_mem hemem
            have hqn : q.1 = n := by
              rw [hqstat] at hcond
              simpa using hcond
            have hfind : s.stats.find? (fun p => p.1 == q.1) = some (q.1, q.2) :=
              find?_key_of_nodup hnodup (by simpa using hq)
            rw [hqn] at hfind
            have hlq : lookupStat s n = some q.2 := by
              unfold lookupStat findVal
              rw [hfind]
              rfl
            rw [hl] at hlq
            have hqd : q.2 = d := (Option.some.inj hlq).symm
            rw [hqd, hd] at hqder
            cases hqder
          simp only [List.filter_cons]
          rw [if_pos (by simp), htail]
          simp
        · simp
  · have h0 : createStatBlock [("a", { base := 10 })] none =
        .ok ⟨[("a", ⟨10, none, none, [], false⟩)]⟩ := by
      norm_num [createStatBlock, buildStats, buildStep, defEntry, mapSet, clampValue,
        Bind.bind, Except.bind, pure, Except.pure]
    have h1 : addedStore ⟨[("a", ⟨10, none, none, [], false⟩)]⟩ "a"
        ⟨2, "x", none, DurationInput.omitted⟩ =
        .ok ⟨[("a", ⟨10, none, none,
          [⟨2, "x", ModType.flat, Dur.inf, Dur.inf⟩], false⟩)]⟩ := by
      norm_num +decide [addedStore, addModifier, lookupStat, findVal, updateStat,
        calcEffective, effEntry, pipelineValue, captureDerived, derivedEvents,
        normalizeDuration, replaceFirst, modType_beq_eq_decide, List.find?,
        Except.map]
    have h2 : addedStore ⟨[("a", ⟨10, none, none,
        [⟨2, "x", ModType.flat, Dur.inf, Dur.inf⟩], false⟩)]⟩ "a"
        ⟨5, "x", none, DurationInput.omitted⟩ =
        .ok ⟨[("a", ⟨10, none, none,
          [⟨5, "x", ModType.flat, Dur.inf, Dur.inf⟩], false⟩)]⟩ := by
      norm_num +decide [addedStore, addModifier, lookupStat, findVal, updateStat,
        calcEffective, effEntry, pipelineValue, captureDerived, derivedEvents,
        normalizeDuration, replaceFirst, modType_beq_eq_decide, List.find?,
        Except.map]
    rw [c6Scenario, h0]
    simp only [Bind.bind, Except.bind]
    rw [h1]
    simp only [Bind.bind, Except.bind]
    rw [h2, Except.map]
    norm_num [getModifiers, lookupStat, findVal, List.find?]

/-- Witness for C6's hypothesis-carrying parts: the invariant holds for a
freshly constructed store, and replacing source `x` keeps one modifier
carrying the new value. -/
theorem claim_C6_witness :
    SourcesOk ⟨[("a", ⟨10, none, none, [], false⟩)]⟩ ∧
    (∃ d', lookupStat (⟨[("a", ⟨10, none, none,
          [⟨5, "x", ModType.flat, Dur.inf, Dur.inf⟩], false⟩)]⟩ : Store) "a" = some d' ∧
      d'.modifiers.map (fun m => m.source) =
        ([⟨2, "x", ModType.flat, Dur.inf, Dur.inf⟩] :
          List InternalModifier).map (fun m => m.source) ∧
      d'.modifiers.find? (fun m => m.source == "x") =
        some ⟨5, "x", ModType.flat, Dur.inf, Dur.inf⟩) := by
  constructor
  · exact claim_C6.1 [("a", { base := 10 })] ⟨[("a", ⟨10, none, none, [], false⟩)]⟩
      (by norm_num [createStatBlock, buildStats, buildStep, defEntry, mapSet,
        clampValue, Bind.bind, Except.bind, pure, Except.pure])
  · have hadd : addModifier (⟨[("a", ⟨10, none, none,
        [⟨2, "x", ModType.flat, Dur.inf, Dur.inf⟩], false⟩)]⟩ : Store) "a"
        ⟨5, "x", none, DurationInput.omitted⟩ =
        .ok (⟨[("a", ⟨10, none, none,
          [⟨5, "x", ModType.flat, Dur.inf, Dur.inf⟩], false⟩)]⟩,
          [⟨"a", 12, 15, false, true⟩]) := by
      norm_num +decide [addModifier, lookupStat, findVal, updateStat,
        calcEffective, effEntry, pipelineValue, captureDerived, derivedEvents,
        normalizeDuration, replaceFirst, modType_beq_eq_decide, List.find?]
    exact claim_C6.2.2.2.2.2.2.2.1
      ⟨[("a", ⟨10, none, none, [⟨2, "x", ModType.flat, Dur.inf, Dur.inf⟩], false⟩)]⟩
      "a" ⟨10, none, none, [⟨2, "x", ModType.flat, Dur.inf, Dur.inf⟩], false⟩
      ⟨5, "x", none, DurationInput.omitted⟩
      ⟨2, "x", ModType.flat, Dur.inf, Dur.inf⟩
      ⟨[("a", ⟨10, none, none, [⟨5, "x", ModType.flat, Dur.inf, Dur.inf⟩], false⟩)]⟩
      [⟨"a", 12, 15, false, true⟩] rfl (List.mem_singleton.mpr rfl) rfl hadd

/-- A digit span never contains a decimal point: the `\d*` capture groups
feeding the "must be an integer" checks in `parseNotation` consist of
digits only, so `contains '.'` on them is identically `false`. -/
theorem takeDigits_no_dot (l : List Char) :
    ((takeDigits l).1.contains '.') = false := by
  induction l with
  | nil => rfl
  | cons c cs ih =>
    by_cases h : c.isDigit
    · have hne : (('.' : Char) == c) = false := by
        apply beq_eq_false_iff_ne.mpr
        intro hh
        rw [← hh] at h
        exact absurd h (by decide)
      simp only [takeDigits, List.takeWhile_cons] at ih ⊢
      rw [if_pos h, List.contains_cons, hne, Bool.false_or]
      exact ih
    · simp only [takeDigits, List.takeWhile_cons]
      rw [if_neg h]
      rfl

/-- A proto-named entry at the head of the snapshot stats list is skipped
by the base-value restore. -/
theorem restoreStats_proto_cons (stats0 : List (String × StatData))
    (snapStats : List (String × ℚ)) (n : String) (v : ℚ)
    (h : protoKeys.contains n = true) :
    restoreStats stats0 ((n, v) :: snapStats) = restoreStats stats0 snapStats := by
  have h' : n ∈ protoKeys := by simpa using h
  unfold restoreStats
  rw [List.foldl_cons]
  congr 1
  simp [h']

/-- A proto-named entry at the head of the snapshot modifiers list is
skipped by the modifier restore. -/
theorem restoreModifiers_proto_cons (s : Store)
    (snapMods : List (String × List SerializedModifier)) (n : String)
    (ms : List SerializedModifier) (h : protoKeys.contains n = true) :
    restoreModifiers s ((n, ms) :: snapMods) = restoreModifiers s snapMods := by
  have h' : n ∈ protoKeys := by simpa using h
  unfold restoreModifiers
  rw [List.foldl_cons]
  congr 1
  simp [h']

/-- The dry run raises exactly when some read is `name` itself or a stat
whose recorded transitive dependency set contains `name`. -/
theorem detectCycle_isSome_iff (m : DepsMap) (name : String) (reads : List String) :
    (detectCycle m name reads).isSome = true ↔
      ∃ c ∈ reads, c = name ∨
        ((getTransitiveDependencies m c).contains name = true) := by
  induction reads with
  | nil => simp [detectCycle]
  | cons c rest ih =>
    by_cases h1 : c = name
    · subst h1
      simp [detectCycle]
    · by_cases h2 : (getTransitiveDependencies m c).contains name = true
      · simp only [detectCycle, if_neg h1, if_pos h2, Option.isSome_some, true_iff]
        exact ⟨c, List.mem_cons_self c rest, Or.inr h2⟩
      · simp only [detectCycle, if_neg h1, if_neg h2]
        rw [ih]
        constructor
        · rintro ⟨x, hx, hpx⟩
          exact ⟨x, List.mem_cons_of_mem _ hx, hpx⟩
        · rintro ⟨x, hx, hpx⟩
          rcases List.mem_cons.mp hx with h | h
          · subst h
            rcases hpx with h | h
            · exact absurd h h1
            · exact absurd h h2
          · exact ⟨x, h, hpx⟩

/-- Any cycle the dry run reports ends with the stat being defined. -/
theorem detectCycle_some_shape (m : DepsMap) (name : String) :
    ∀ (reads cyc : List String),
      detectCycle m name reads = some cyc → ∃ pre, cyc = pre ++ [name] := by
  intro reads
  induction reads with
  | nil =>
    intro cyc h
    simp [detectCycle] at h
  | cons c rest ih =>
    intro cyc h
    by_cases h1 : c = name
    · rw [detectCycle, if_pos h1] at h
      injection h with h
      exact ⟨[], h.symm⟩
    · by_cases h2 : (getTransitiveDependencies m c).contains name = true
      · rw [detectCycle, if_neg h1, if_pos h2] at h
        injection h with h
        exact ⟨c :: getTransitiveDependencies m c, by rw [← h]⟩
      · rw [detectCycle, if_neg h1, if_neg h2] at h
        exact ih cyc h

/-- C5: `createDerivedStat` runs the formula's reads through the
instrumented proxy at the defining call itself.  (a) It returns an error
exactly when some read is the stat's own name or a stat whose recorded
transitive dependency set contains that name; (b) every error is a
`CircularDependencyError` whose cycle path ends with the stat being
defined; (c) whether the formula would throw its own error after the reads
is irrelevant (the dry-run error is swallowed); (d) on success the stat is
registered as derived and its deduplicated reads are recorded; (e) defining
`b` from `a`, `c` from `b`, then `a` from `c` raises the error at the
defining call for `a` with cycle `[c, b, a, a]`. -/
theorem claim_C5 :
    (∀ (ctx : DerivedCtx) (name : String) (fm : FormulaModel),
        (∃ e, createDerivedStat ctx name fm = .error e) ↔
          ∃ c ∈ fm.reads, c = name ∨
            ((getTransitiveDependencies ctx.deps c).contains name = true)) ∧
    (∀ (ctx : DerivedCtx) (name : String) (fm : FormulaModel) (e : StatsError),
        createDerivedStat ctx name fm = .error e →
          ∃ cyc pre, e = .circularDependencyError
              "Circular dependency detected in derived stat" cyc ∧
            cyc = pre ++ [name]) ∧
    (∀ (ctx : DerivedCtx) (name : String) (reads : List String) (b : Bool),
        createDerivedStat ctx name ⟨reads, b⟩ =
          createDerivedStat ctx name ⟨reads, false⟩) ∧
    (∀ (ctx : DerivedCtx) (name : String) (fm : FormulaModel) (ctx' : DerivedCtx),
        createDerivedStat ctx name fm = .ok ctx' →
          lookupStat ctx'.store name = some ⟨0, none, none, [], true⟩ ∧
          ctx'.deps = depsSet ctx.deps name (fm.reads.foldl addUniq [])) ∧
    c5Scenario = .error (.circularDependencyError
      "Circular dependency detected in derived stat" ["c", "b", "a", "a"]) := by
  refine ⟨?_, ?_, ?_, ?_, ?_⟩
  · intro ctx name fm
    constructor
    · rintro ⟨e, he⟩
      unfold createDerivedStat at he
      cases hd : detectCycle ctx.deps name fm.reads with
      | none =>
        rw [hd] at he
        exact absurd he (by simp)
      | some cyc =>
        exact (detectCycle_isSome_iff ctx.deps name fm.reads).mp (by rw [hd]; rfl)
    · intro hex
      have hs := (detectCycle_isSome_iff ctx.deps name fm.reads).mpr hex
      rcases Option.isSome_iff_exists.mp hs with ⟨cyc, hcyc⟩
      refine ⟨.circularDependencyError
        "Circular dependency detected in derived stat" cyc, ?_⟩
      unfold createDerivedStat
      rw [hcyc]
  · intro ctx name fm e he
    unfold createDerivedStat at he
    cases hd : detectCycle ctx.deps name fm.reads with
    | none =>
      rw [hd] at he
      exact absurd he (by simp)
    | some cyc =>
      rw [hd] at he
      injection he with he1
      rcases detectCycle_some_shape ctx.deps name fm.reads cyc hd with ⟨pre, hpre⟩
      exact ⟨cyc, pre, he1.symm, hpre⟩
  · intro ctx name reads b
    rfl
  · intro ctx name fm ctx' h
    unfold createDerivedStat at h
    cases hd : detectCycle ctx.deps name fm.reads with
    | some cyc =>
      rw [hd] at h
      exact absurd h (by simp)
    | none =>
      rw [hd] at h
      injection h with h1
      constructor
      · rw [← h1]
        exact findVal_mapSet_self ctx.store.stats name ⟨0, none, none, [], true⟩
      · rw [← h1]
  · rfl

/-- Closed witness for C5: the error shape applied to the concrete cycle
error raised while defining `a`, and the success clause applied to the
initial definition of `b`. -/
theorem claim_C5_witness :
    (∃ cyc pre, (StatsError.circularDependencyError
        "Circular dependency detected in derived stat" ["c", "b", "a", "a"]) =
        .circularDependencyError "Circular dependency detected in derived stat" cyc ∧
      cyc = pre ++ ["a"]) ∧
    (lookupStat (⟨[("b", ⟨0, none, none, [], true⟩)]⟩ : Store) "b" =
        some ⟨0, none, none, [], true⟩ ∧
      ([("b", ["a"])] : DepsMap) =
        depsSet [] "b" ((["a"] : List String).foldl addUniq [])) :=
  ⟨claim_C5.2.1 ⟨[("b", ["a"]), ("c", ["b"])],
      ⟨[("b", ⟨0, none, none, [], true⟩), ("c", ⟨0, none, none, [], true⟩)]⟩⟩
      "a" ⟨["c"], false⟩ _ rfl,
   claim_C5.2.2.2.1 ⟨[], ⟨[]⟩⟩ "b" ⟨["a"], false⟩
      ⟨[("b", ["a"])], ⟨[("b", ⟨0, none, none, [], true⟩)]⟩⟩ rfl⟩

/-- C7: for every notation string and every random sequence, a successful
`roll` returns a total equal to the sum of the kept dice plus the flat
modifier; and rolling `"4d6kh3"` against the fixed uniform sequence that
produces die faces 1, 3, 5, 6 keeps `[3, 5, 6]` and totals 14. -/
theorem claim_C7 :
    (∀ (o : String) (g : ℕ → ℚ) (r : RollResult),
        roll o g = .ok r → r.total = r.kept.sum + r.modifier) ∧
    roll "4d6kh3" gFixed =
      .ok ⟨14, [1, 3, 5, 6], [3, 5, 6], "4d6kh3", 0⟩ := by
  constructor
  · intro o g r h
    unfold roll at h
    cases hp : parseNotation o with
    | error e =>
      rw [hp] at h
      simp [Bind.bind, Except.bind] at h
    | ok t =>
      rw [hp] at h
      simp only [Bind.bind, Except.bind] at h
      injection h with h1
      rw [← h1]
  · have h0 : rollDie gFixed 0 6 = 1 := by norm_num [rollDie, gFixed]
    have h1 : rollDie gFixed 1 6 = 3 := by norm_num [rollDie, gFixed]
    have h2 : rollDie gFixed 2 6 = 5 := by norm_num [rollDie, gFixed]
    have h3 : rollDie gFixed 3 6 = 6 := by norm_num [rollDie, gFixed]
    have hall : rollAllDice gFixed 6 false [] 4 0 =
        ([[⟨1, false, false⟩], [⟨3, false, false⟩],
          [⟨5, false, false⟩], [⟨6, false, false⟩]], 4) := by
      simp [rollAllDice, rollSingleDie, explodeLoop, h0, h1, h2, h3]
    have hp : parseNotation "4d6kh3" =
        .ok { count := 4, sides := 6, modifiers := 0, keepHighest := some 3 } := by
      decide
    have hcontrib : ([[⟨1, false, false⟩], [⟨3, false, false⟩],
        [⟨5, false, false⟩], [⟨6, false, false⟩]] :
          List (List DieRoll)).map dieContribution = [1, 3, 5, 6] := by decide
    have hsel : selectKeptDice [1, 3, 5, 6] (some 3) none none none = [3, 5, 6] := by
      decide
    simp only [roll, hp, Except.bind, bind]
    simp only [hall]
    simp [hcontrib, hsel]

/-- Closed-form witness for the universal part of C7: the identity applied
to the concrete `4d6kh3` roll of the claim's scenario. -/
theorem claim_C7_witness :
    (14 : ℤ) = ([3, 5, 6] : List ℤ).sum + 0 :=
  claim_C7.1 "4d6kh3" gFixed ⟨14, [1, 3, 5, 6], [3, 5, 6], "4d6kh3", 0⟩ claim_C7.2

/-- C8: the specific "Dice count must be an integer" / "Die size must be an
integer" errors are unreachable. On `"1.5d6"` the parser reports the generic
invalid-notation error and on `"2d6.5"` the generic unexpected-character
error, because the digit-span captures feeding the decimal-point checks can
never contain `'.'` (third conjunct: the guard of both branches is
identically false). -/
theorem claim_C8 :
    parseNotation "1.5d6" =
      .error (.parseError "Invalid dice notation: \"1.5d6\"" "1.5d6") ∧
    parseNotation "2d6.5" =
      .error (.parseError "Unexpected character: \".\"" "2d6.5") ∧
    (∀ l : List Char, ((takeDigits l).1.contains '.') = false) :=
  ⟨by decide, by decide, takeDigits_no_dot⟩

/-- Clamping is idempotent, for any combination of optional bounds. -/
theorem clampValue_idem (v : ℚ) (lo hi : Option ℚ) :
    clampValue (clampValue v lo hi) lo hi = clampValue v lo hi := by
  cases lo with
  | none =>
    cases hi with
    | none => rfl
    | some h =>
      simp only [clampValue]
      rw [min_assoc, min_self]
  | some l =>
    cases hi with
    | none =>
      simp only [clampValue]
      rw [max_assoc, max_self]
    | some h =>
      simp only [clampValue]
      rw [max_min_distrib_right, max_assoc, max_self, min_assoc,
        min_eq_right (le_max_left h l)]

/-- Both components of a normalized duration agree. -/
theorem normalizeDuration_pair_eq (di : DurationInput) :
    (normalizeDuration di).1 = (normalizeDuration di).2 := by
  cases di <;> rfl

/-- A member of a replace-or-push result is an old modifier or the new
one. -/
theorem mem_replaceFirst {l : List InternalModifier} {m x : InternalModifier}
    (h : x ∈ replaceFirst l m) : x ∈ l ∨ x = m := by
  induction l with
  | nil =>
    simp [replaceFirst] at h
    exact Or.inr h
  | cons a rest ih =>
    rw [replaceFirst] at h
    by_cases ha : (a.source == m.source) = true
    · rw [if_pos ha] at h
      rcases List.mem_cons.mp h with h | h
      · exact Or.inr h
      · exact Or.inl (List.mem_cons_of_mem _ h)
    · rw [if_neg ha] at h
      rcases List.mem_cons.mp h with h | h
      · exact Or.inl (h ▸ List.mem_cons_self a rest)
      · rcases ih h with h | h
        · exact Or.inl (List.mem_cons_of_mem _ h)
        · exact Or.inr h

/-- Replace-or-push with a source absent from the list appends. -/
theorem replaceFirst_fresh {l : List InternalModifier} {m : InternalModifier}
    (h : ∀ x ∈ l, x.source ≠ m.source) : replaceFirst l m = l ++ [m] := by
  induction l with
  | nil => rfl
  | cons a rest ih =>
    rw [replaceFirst,
      if_neg (by simpa using h a (List.mem_cons_self a rest)), ih]
    · rfl
    · intro x hx
      exact h x (List.mem_cons_of_mem _ hx)

/-- The internal modifier `addModifier` builds from a replayed serialized
modifier. -/
theorem internal_of_serialized_eq (m : SerializedModifier) :
    (⟨(modifierInputOfSerialized m).value, (modifierInputOfSerialized m).source,
      (modifierInputOfSerialized m).type.getD ModType.flat,
      (normalizeDuration (modifierInputOfSerialized m).duration).1,
      (normalizeDuration (modifierInputOfSerialized m).duration).2⟩ :
        InternalModifier) = internalOfSerialized m := by
  cases m with
  | mk v src t dur => cases dur <;> rfl

/-- Updating at a key different from the head leaves the head alone. -/
theorem updateStat_cons_ne {k : String} {e : StatData}
    {l : List (String × StatData)} {n : String} {d : StatData} (h : k ≠ n) :
    updateStat ⟨(k, e) :: l⟩ n d = ⟨(k, e) :: (updateStat ⟨l⟩ n d).stats⟩ := by
  simp only [updateStat, List.map_cons]
  rw [if_neg (by simpa using h)]

/-- Updating never changes the key sequence. -/
theorem updateStat_keys (s : Store) (n : String) (d : StatData) :
    (updateStat s n d).stats.map Prod.fst = s.stats.map Prod.fst := by
  simp only [updateStat, List.map_map]
  apply List.map_congr_left
  intro p _
  by_cases h : (p.1 == n) = true
  · simp only [Function.comp, if_pos h]
    exact (eq_of_beq h).symm
  · simp only [Function.comp, if_neg h]

/-- Two successive updates at the same key collapse to the second. -/
theorem updateStat_updateStat (s : Store) (n : String) (a b : StatData) :
    updateStat (updateStat s n a) n b = updateStat s n b := by
  simp only [updateStat, List.map_map]
  refine congrArg Store.mk ?_
  apply List.map_congr_left
  intro p _
  by_cases h : p.1 = n
  · simp [Function.comp, h]
  · simp [Function.comp, h]

/-- Writing back the value an entry already holds is the identity, given
distinct keys. -/
theorem updateStat_lookup_self {s : Store} {n : String} {d : StatData}
    (hl : lookupStat s n = some d) (hnd : (s.stats.map Prod.fst).Nodup) :
    updateStat s n d = s := by
  refine congrArg Store.mk ?_
  have : ∀ (l : List (String × StatData)), findVal l n = some d →
      (l.map Prod.fst).Nodup →
      l.map (fun p => if p.1 == n then (n, d) else p) = l := by
    intro l
    induction l with
    | nil => intro h _; simp [findVal] at h
    | cons a rest ih =>
      intro h hnd'
      rw [List.map_cons]
      by_cases han : a.1 = n
      · have ha : (a.1 == n) = true := by simpa using han
        have hval : a.2 = d := by
          rw [findVal_cons, if_pos han] at h
          exact Option.some.inj h
        rw [if_pos ha]
        have htail : rest.map (fun p => if p.1 == n then (n, d) else p) =
            rest.map id := by
          apply List.map_congr_left
          intro p hp
          simp only [id]
          rw [if_neg]
          intro hpn
          have hpn' : p.1 = n := eq_of_beq hpn
          have hmem : n ∈ rest.map Prod.fst := hpn' ▸ List.mem_map_of_mem _ hp
          rw [List.map_cons] at hnd'
          exact (List.nodup_cons.mp hnd').1 (han ▸ hmem)
        rw [htail, List.map_id]
        have hpair : (n, d) = a := by
          cases a with
          | mk a1 a2 =>
            simp only at han hval
            rw [han, hval]
        rw [hpair]
      · have ha : ¬((a.1 == n) = true) := by simpa using han
        rw [if_neg ha]
        rw [findVal_cons, if_neg han] at h
        rw [List.map_cons] at hnd'
        rw [ih h (List.nodup_cons.mp hnd').2]
  exact this s.stats hl hnd

/-- With pairwise-distinct names the construction loop appends an entry
per definition, in order. -/
theorem buildFold_nodup_entries (defs : List (String × StatDefinition)) :
    ∀ (acc l : List (String × StatData)),
      (acc.map Prod.fst ++ defs.map Prod.fst).Nodup →
      defs.foldlM buildStep acc = .ok l →
      l = acc ++ defs.map (fun p => (p.1, defEntry p.2)) := by
  induction defs with
  | nil =>
    intro acc l _ h
    simp only [List.foldlM] at h
    cases h
    simp
  | cons p rest ih =>
    intro acc l hnd h
    simp only [List.foldlM_cons] at h
    cases hstep : buildStep acc p with
    | error e =>
      rw [hstep] at h
      simp [Bind.bind, Except.bind] at h
    | ok acc' =>
      rw [hstep] at h
      simp only [Bind.bind, Except.bind] at h
      have hval := buildStep_ok_val hstep
      have hnotin : p.1 ∉ acc.map Prod.fst := by
        intro hmem
        rcases (List.nodup_append.mp hnd) with ⟨_, _, hdisj⟩
        exact hdisj hmem (by simp)
      have hany : ¬(acc.any (fun q => q.1 == p.1) = true) := by
        intro ha2
        rcases List.any_eq_true.mp ha2 with ⟨q, hq, hqe⟩
        exact hnotin ((eq_of_beq hqe) ▸ List.mem_map_of_mem _ hq)
      have hacc' : acc' = acc ++ [(p.1, defEntry p.2)] := by
        rw [hval]
        unfold mapSet
        rw [if_neg hany]
      subst hacc'
      have hres := ih (acc ++ [(p.1, defEntry p.2)]) l (by
        simpa [List.append_assoc] using hnd) h
      rw [hres]
      simp [List.append_assoc]

/-- Aligned stores carry exactly the defined names, in order. -/
theorem storeOk_keys {defs : List (String × StatDefinition)}
    {l : List (String × StatData)}
    (h : List.Forall₂ (fun (p : String × StatDefinition) (e : String × StatData) =>
      e.1 = p.1 ∧ entryOkFor p.2 e.2) defs l) :
    l.map Prod.fst = defs.map Prod.fst := by
  induction h with
  | nil => rfl
  | cons h1 _ ih => simp [h1.1, ih]

/-- Every entry of an aligned store is non-derived, has distinct modifier
sources, and nominal durations equal to remaining ones. -/
theorem storeOk_entries {defs : List (String × StatDefinition)}
    {l : List (String × StatData)}
    (h : List.Forall₂ (fun (p : String × StatDefinition) (e : String × StatData) =>
      e.1 = p.1 ∧ entryOkFor p.2 e.2) defs l) :
    ∀ e ∈ l, e.2.isDerived = false ∧
      (e.2.modifiers.map (fun m => m.source)).Nodup ∧
      ∀ m ∈ e.2.modifiers, m.duration = m.remainingDuration := by
  induction h with
  | nil => intro e he; cases he
  | cons h1 _ ih =>
    intro e he
    rcases List.mem_cons.mp he with he | he
    · subst he
      exact ⟨h1.2.2.2.1, h1.2.2.2.2.2.1, h1.2.2.2.2.2.2⟩
    · exact ih e he

/-- A freshly built store is aligned with its definitions. -/
theorem storeOk_init (defs : List (String × StatDefinition)) :
    StoreOkFor defs ⟨defs.map (fun p => (p.1, defEntry p.2))⟩ := by
  unfold StoreOkFor
  rw [List.forall₂_map_right_iff]
  apply List.forall₂_same.mpr
  intro p _
  refine ⟨rfl, rfl, rfl, rfl, ?_, by simp [defEntry], by simp [defEntry]⟩
  exact (clampValue_idem p.2.base p.2.min p.2.max).symm

/-- Looking up a defined name in an aligned store yields an entry
reachable from that definition. -/
theorem storeOk_lookup {defs : List (String × StatDefinition)}
    {l : List (String × StatData)}
    (hok : List.Forall₂ (fun (p : String × StatDefinition) (e : String × StatData) =>
      e.1 = p.1 ∧ entryOkFor p.2 e.2) defs l)
    (hnd : (defs.map Prod.fst).Nodup) :
    ∀ {q : String × StatDefinition} {n : String} {d : StatData},
      q ∈ defs → q.1 = n → findVal l n = some d → entryOkFor q.2 d := by
  induction hok with
  | nil => intro q n d hq; cases hq
  | cons h1 hrest ih =>
    intro q n d hq hqn hl
    rename_i p e ps es
    by_cases he : e.1 = n
    · have hd : e.2 = d := by
        rw [findVal_cons, if_pos he] at hl
        exact Option.some.inj hl
      have hqp : q = p := by
        rcases List.mem_cons.mp hq with h | h
        · exact h
        · exfalso
          have hp1 : p.1 = n := h1.1.symm.trans he
          have hmem : n ∈ ps.map Prod.fst := hqn ▸ List.mem_map_of_mem _ h
          rw [List.map_cons] at hnd
          exact (List.nodup_cons.mp hnd).1 (hp1.symm ▸ hmem)
      subst hqp
      exact hd ▸ h1.2
    · rw [findVal_cons, if_neg he] at hl
      have hqps : q ∈ ps := by
        rcases List.mem_cons.mp hq with h | h
        · exact absurd (h1.1.trans (h ▸ hqn)) he
        · exact h
      rw [List.map_cons] at hnd
      exact ih (List.nodup_cons.mp hnd).2 hqps hqn hl

/-- Updating an aligned store at a name with an entry reachable from that
name's definition keeps it aligned. -/
theorem storeOk_update_list {n : String} {d' : StatData} :
    ∀ {defs : List (String × StatDefinition)} {l : List (String × StatData)},
      List.Forall₂ (fun (p : String × StatDefinition) (e : String × StatData) =>
        e.1 = p.1 ∧ entryOkFor p.2 e.2) defs l →
      (∀ q ∈ defs, q.1 = n → entryOkFor q.2 d') →
      List.Forall₂ (fun (p : String × StatDefinition) (e : String × StatData) =>
        e.1 = p.1 ∧ entryOkFor p.2 e.2) defs
        (l.map (fun p => if p.1 == n then (n, d') else p)) := by
  intro defs l hok
  induction hok with
  | nil => intro _; exact List.Forall₂.nil
  | cons h1 hrest ih =>
    intro hd'
    rename_i p e ps es
    rw [List.map_cons]
    refine List.Forall₂.cons ?_ (ih (fun q hq => hd' q (List.mem_cons_of_mem _ hq)))
    by_cases he : e.1 = n
    · rw [if_pos (by simpa using he)]
      exact ⟨(h1.1.symm.trans he).symm,
        hd' p (List.mem_cons_self p _) (h1.1.symm.trans he)⟩
    · rw [if_neg (by simpa using he)]
      exact h1

/-- The store a successful `set` returns. -/
theorem set_ok_shape {s : Store} {n : String} {d : StatData} (v : ℚ)
    (hl : lookupStat s n = some d) (hder : d.isDerived = false) :
    ∃ r2, set s n v =
      .ok (updateStat s n { d with base := clampValue v d.min d.max }, r2) := by
  simp only [set, hl, hder, Bool.false_eq_true, if_false]
  exact ⟨_, rfl⟩

/-- The store a successful `addModifier` returns. -/
theorem addModifier_ok_shape {s : Store} {n : String} {d : StatData}
    (mi : ModifierInput) (hl : lookupStat s n = some d)
    (hder : d.isDerived = false) :
    ∃ ev, addModifier s n mi =
      .ok (updateStat s n { d with modifiers := (replaceFirst d.modifiers
        (InternalModifier.mk mi.value mi.source (mi.type.getD ModType.flat)
          (normalizeDuration mi.duration).1
          (normalizeDuration mi.duration).2)) }, ev) := by
  simp only [addModifier, hl, hder, Bool.false_eq_true, if_false]
  exact ⟨_, rfl⟩

/-- One `set`/`addModifier` call (throw = no-op) keeps a store aligned
with its definitions. -/
theorem storeOk_applyOp {defs : List (String × StatDefinition)} {s : Store}
    (hnd : (defs.map Prod.fst).Nodup) (hok : StoreOkFor defs s) (op : Op) :
    StoreOkFor defs (applyOp s op) := by
  cases op with
  | set n v =>
    show StoreOkFor defs (match set s n v with | .ok r => r.1 | .error _ => s)
    cases hl : lookupStat s n with
    | none =>
      simp only [set, hl]
      exact hok
    | some d =>
      cases hder : d.isDerived with
      | true =>
        simp only [set, hl, hder, if_true]
        exact hok
      | false =>
        rcases set_ok_shape v hl hder with ⟨r2, hset⟩
        rw [hset]
        show StoreOkFor defs
          (updateStat s n { d with base := clampValue v d.min d.max })
        apply storeOk_update_list hok
        intro q hq hqn
        rcases storeOk_lookup hok hnd hq hqn hl with
          ⟨hmin, hmax, hder2, _, hsrc, hdur⟩
        exact ⟨hmin, hmax, hder2, (clampValue_idem v d.min d.max).symm, hsrc, hdur⟩
  | addModifier n mi =>
    show StoreOkFor defs
      (match addModifier s n mi with | .ok r => r.1 | .error _ => s)
    cases hl : lookupStat s n with
    | none =>
      simp only [addModifier, hl]
      exact hok
    | some d =>
      cases hder : d.isDerived with
      | true =>
        simp only [addModifier, hl, hder, if_true]
        exact hok
      | false =>
        rcases addModifier_ok_shape mi hl hder with ⟨ev, hadd⟩
        rw [hadd]
        show StoreOkFor defs
          (updateStat s n { d with modifiers := (replaceFirst d.modifiers
            (InternalModifier.mk mi.value mi.source (mi.type.getD ModType.flat)
              (normalizeDuration mi.duration).1
              (normalizeDuration mi.duration).2)) })
        apply storeOk_update_list hok
        intro q hq hqn
        rcases storeOk_lookup hok hnd hq hqn hl with
          ⟨hmin, hmax, hder2, hbase, hsrc, hdur⟩
        refine ⟨hmin, hmax, hder2, hbase, replaceFirst_sources_nodup hsrc, ?_⟩
        intro m hm
        rcases mem_replaceFirst hm with hm | hm
        · exact hdur m hm
        · rw [hm]
          exact normalizeDuration_pair_eq mi.duration

/-- Any sequence of `set`/`addModifier` calls keeps a store aligned. -/
theorem storeOk_runOps {defs : List (String × StatDefinition)}
    (hnd : (defs.map Prod.fst).Nodup) :
    ∀ (ops : List Op) (s : Store), StoreOkFor defs s →
      StoreOkFor defs (runOps s ops) := by
  intro ops
  induction ops with
  | nil => intro s hok; exact hok
  | cons op rest ih =>
    intro s hok
    show StoreOkFor defs (runOps (applyOp s op) rest)
    exact ih _ (storeOk_applyOp hnd hok op)

/-- Peeling one snapshot entry off the base-value restore. -/
theorem restoreStats_cons_eq (l : List (String × StatData)) (q : String × ℚ)
    (rest : List (String × ℚ)) :
    restoreStats l (q :: rest) = restoreStats (restoreStats l [q]) rest := rfl

/-- One base-restore step at a key different from the head leaves the
head alone. -/
theorem restoreStats_single_cons_ne (k : String) (e : StatData)
    (acc : List (String × StatData)) (q : String × ℚ) (hq : q.1 ≠ k) :
    restoreStats ((k, e) :: acc) [q] = (k, e) :: restoreStats acc [q] := by
  simp only [restoreStats, List.foldl_cons, List.foldl_nil]
  by_cases hp : protoKeys.contains q.1 = true
  · rw [if_pos hp, if_pos hp]
  · rw [if_neg hp, if_neg hp]
    have hfv : findVal ((k, e) :: acc) q.1 = findVal acc q.1 := by
      rw [findVal_cons, if_neg (fun hh => hq hh.symm)]
    rw [hfv]
    cases hd : findVal acc q.1 with
    | none => rfl
    | some d =>
      show ((k, e) :: acc).map (fun q1 => if q1.1 == q.1 then
          (q.1, { d with base := (clampValue q.2 d.min d.max) }) else q1) =
        (k, e) :: acc.map (fun q1 => if q1.1 == q.1 then
          (q.1, { d with base := (clampValue q.2 d.min d.max) }) else q1)
      simp only [List.map_cons]
      rw [if_neg (show ¬((k == q.1) = true) by simpa using Ne.symm hq)]

/-- The base-value restore never touches a head entry whose key is absent
from the snapshot. -/
theorem restoreStats_cons_notmem (k : String) (e : StatData) :
    ∀ (snap : List (String × ℚ)) (acc : List (String × StatData)),
      (∀ q ∈ snap, q.1 ≠ k) →
      restoreStats ((k, e) :: acc) snap = (k, e) :: restoreStats acc snap := by
  intro snap
  induction snap with
  | nil => intro acc _; rfl
  | cons q rest ih =>
    intro acc h
    rw [restoreStats_cons_eq, restoreStats_cons_eq acc,
      restoreStats_single_cons_ne k e acc q (h q (List.mem_cons_self q rest))]
    exact ih (restoreStats acc [q]) (fun x hx => h x (List.mem_cons_of_mem _ hx))

/-- Restoring the serialized bases of an aligned store onto a freshly
built entry list reproduces every entry up to its (still empty) modifier
list. -/
theorem restoreStats_aligned :
    ∀ {defs : List (String × StatDefinition)} {l : List (String × StatData)},
      List.Forall₂ (fun (p : String × StatDefinition) (e : String × StatData) =>
        e.1 = p.1 ∧ entryOkFor p.2 e.2) defs l →
      (l.map Prod.fst).Nodup →
      (∀ p ∈ l, protoKeys.contains p.1 = false) →
      restoreStats (defs.map (fun r => (r.1, defEntry r.2)))
          (l.map (fun r => (r.1, r.2.base))) =
        l.map (fun r => (r.1, { r.2 with modifiers := ([] : List InternalModifier) })) := by
  intro defs l hok
  induction hok with
  | nil => intro _ _; rfl
  | cons h1 hrest ih =>
    rename_i p e ps es
    intro hnd hproto
    have hkeys : es.map Prod.fst = ps.map Prod.fst := storeOk_keys hrest
    have hnotin : e.1 ∉ es.map Prod.fst := by
      rw [List.map_cons] at hnd
      exact (List.nodup_cons.mp hnd).1
    rw [List.map_cons, List.map_cons, List.map_cons, restoreStats_cons_eq]
    have hstep : restoreStats ((p.1, defEntry p.2) ::
        ps.map (fun r => (r.1, defEntry r.2))) [(e.1, e.2.base)] =
        (e.1, { e.2 with modifiers := ([] : List InternalModifier) }) ::
          ps.map (fun r => (r.1, defEntry r.2)) := by
      simp only [restoreStats, List.foldl_cons, List.foldl_nil]
      rw [if_neg (by simpa using hproto e (List.mem_cons_self e es))]
      rw [findVal_cons, if_pos h1.1.symm]
      show ((p.1, defEntry p.2) :: ps.map (fun r => (r.1, defEntry r.2))).map
          (fun q1 => if q1.1 == e.1 then
            (e.1, { defEntry p.2 with base := (clampValue e.2.base
              (defEntry p.2).min (defEntry p.2).max) })
          else q1) =
        (e.1, { e.2 with modifiers := ([] : List InternalModifier) }) ::
          ps.map (fun r => (r.1, defEntry r.2))
      simp only [List.map_cons]
      rw [if_pos (show ((p.1 == e.1) = true) by simpa using h1.1.symm)]
      have htail : (ps.map (fun r => (r.1, defEntry r.2))).map
          (fun q1 => if q1.1 == e.1 then
            (e.1, { defEntry p.2 with base := (clampValue e.2.base
              (defEntry p.2).min (defEntry p.2).max) })
          else q1) = ps.map (fun r => (r.1, defEntry r.2)) := by
        conv_rhs => rw [← List.map_id (ps.map (fun r => (r.1, defEntry r.2)))]
        apply List.map_congr_left
        intro x hx
        simp only [id]
        rw [if_neg]
        intro hbe
        have hxe : x.1 = e.1 := by simpa using hbe
        rcases List.mem_map.mp hx with ⟨r, hr, hrx⟩
        have hxr : x.1 = r.1 := by rw [← hrx]
        have hmem : e.1 ∈ es.map Prod.fst := by
          rw [hkeys]
          exact (hxe ▸ hxr) ▸ List.mem_map_of_mem _ hr
        exact hnotin hmem
      rw [htail]
      rcases h1.2 with ⟨hmin, hmax, hder, hbase, _, _⟩
      have hhead : ({ defEntry p.2 with base := (clampValue e.2.base
          (defEntry p.2).min (defEntry p.2).max) } : StatData) =
          { e.2 with modifiers := ([] : List InternalModifier) } := by
        show (⟨clampValue e.2.base p.2.min p.2.max, p.2.min, p.2.max, [], false⟩ :
          StatData) = ⟨e.2.base, e.2.min, e.2.max, [], e.2.isDerived⟩
        rw [← hmin, ← hmax, ← hbase, hder]
      rw [hhead]
    rw [hstep]
    rw [restoreStats_cons_notmem _ _ _ _ (by
      intro q hq
      rcases List.mem_map.mp hq with ⟨r, hr, hrq⟩
      intro hqe
      exact hnotin (hqe ▸ hrq ▸ List.mem_map_of_mem _ hr))]
    rw [ih (by
        rw [List.map_cons] at hnd
        exact (List.nodup_cons.mp hnd).2)
      (fun x hx => hproto x (List.mem_cons_of_mem _ hx))]

/-- The keep-store-on-throw wrapper of one replayed `addModifier` call,
evaluated on a present, non-derived stat. -/
theorem addStep_ok {s : Store} {n : String} {d : StatData} (mi : ModifierInput)
    (hl : lookupStat s n = some d) (hder : d.isDerived = false) :
    (match addModifier s n mi with | .ok r => r.1 | .error _ => s) =
      updateStat s n { d with modifiers := (replaceFirst d.modifiers
        (InternalModifier.mk mi.value mi.source (mi.type.getD ModType.flat)
          (normalizeDuration mi.duration).1
          (normalizeDuration mi.duration).2)) } := by
  rcases addModifier_ok_shape mi hl hder with ⟨ev, hadd⟩
  rw [hadd]

/-- One replayed `addModifier` call at a key different from the head
leaves the head alone. -/
theorem addStep_cons_ne (k : String) (d0 : StatData) (n : String) (h : k ≠ n)
    (mi : ModifierInput) (l : List (String × StatData)) :
    (match addModifier ⟨(k, d0) :: l⟩ n mi with
      | .ok r => r.1 | .error _ => (⟨(k, d0) :: l⟩ : Store)) =
    ⟨(k, d0) :: (match addModifier ⟨l⟩ n mi with
      | .ok r => r.1 | .error _ => (⟨l⟩ : Store)).stats⟩ := by
  have hlk : lookupStat ⟨(k, d0) :: l⟩ n = lookupStat ⟨l⟩ n := by
    show findVal ((k, d0) :: l) n = findVal l n
    rw [findVal_cons, if_neg h]
  cases hl : lookupStat ⟨l⟩ n with
  | none =>
    simp only [addModifier, hlk, hl]
  | some d =>
    cases hder : d.isDerived with
    | true =>
      simp only [addModifier, hlk, hl, hder, if_true]
    | false =>
      rw [addStep_ok mi (hlk.trans hl) hder, addStep_ok mi hl hder]
      exact updateStat_cons_ne h

/-- A whole replayed modifier list at a key different from the head
leaves the head alone. -/
theorem replayFold_cons_ne (n k : String) (d0 : StatData) (h : k ≠ n) :
    ∀ (ms : List SerializedModifier) (l : List (String × StatData)),
      ms.foldl (fun acc2 m =>
        match addModifier acc2 n (modifierInputOfSerialized m) with
        | .ok r => r.1 | .error _ => acc2) ⟨(k, d0) :: l⟩ =
      ⟨(k, d0) :: (ms.foldl (fun acc2 m =>
        match addModifier acc2 n (modifierInputOfSerialized m) with
        | .ok r => r.1 | .error _ => acc2) ⟨l⟩).stats⟩ := by
  intro ms
  induction ms with
  | nil => intro l; rfl
  | cons m rest ih =>
    intro l
    rw [List.foldl_cons, List.foldl_cons,
      addStep_cons_ne k d0 n h (modifierInputOfSerialized m) l]
    exact ih _

/-- Peeling one snapshot entry off the modifier restore. -/
theorem restoreModifiers_cons_eq (s : Store)
    (q : String × List SerializedModifier)
    (rest : List (String × List SerializedModifier)) :
    restoreModifiers s (q :: rest) =
      restoreModifiers (restoreModifiers s [q]) rest := rfl

/-- One modifier-restore step at a key different from the head leaves the
head alone. -/
theorem restoreModifiers_single_cons_ne (k : String) (d0 : StatData)
    (l : List (String × StatData)) (q : String × List SerializedModifier)
    (hq : q.1 ≠ k) :
    restoreModifiers ⟨(k, d0) :: l⟩ [q] =
      ⟨(k, d0) :: (restoreModifiers ⟨l⟩ [q]).stats⟩ := by
  simp only [restoreModifiers, List.foldl_cons, List.foldl_nil]
  by_cases hp : protoKeys.contains q.1 = true
  · rw [if_pos hp, if_pos hp]
  · rw [if_neg hp, if_neg hp]
    have hlk : lookupStat ⟨(k, d0) :: l⟩ q.1 = lookupStat ⟨l⟩ q.1 := by
      show findVal ((k, d0) :: l) q.1 = findVal l q.1
      rw [findVal_cons, if_neg (fun hh => hq hh.symm)]
    rw [hlk]
    by_cases hs : (lookupStat ⟨l⟩ q.1).isSome = true
    · rw [if_pos hs, if_pos hs]
      exact replayFold_cons_ne q.1 k d0 (fun hh => hq hh.symm) q.2 l
    · rw [if_neg hs, if_neg hs]

/-- The modifier restore never touches a head entry whose key is absent
from the snapshot. -/
theorem restoreModifiers_cons_notmem (k : String) (d0 : StatData) :
    ∀ (snap : List (String × List SerializedModifier))
      (l : List (String × StatData)),
      (∀ q ∈ snap, q.1 ≠ k) →
      restoreModifiers ⟨(k, d0) :: l⟩ snap =
        ⟨(k, d0) :: (restoreModifiers ⟨l⟩ snap).stats⟩ := by
  intro snap
  induction snap with
  | nil => intro l _; rfl
  | cons q rest ih =>
    intro l h
    rw [restoreModifiers_cons_eq, restoreModifiers_cons_eq (⟨l⟩ : Store),
      restoreModifiers_single_cons_ne k d0 l q (h q (List.mem_cons_self q rest))]
    exact ih _ (fun x hx => h x (List.mem_cons_of_mem _ hx))

/-- Replaying a serialized modifier list with fresh, pairwise-distinct
sources appends its internal image to the target stat's list. -/
theorem replay_fold (n : String) :
    ∀ (ms : List SerializedModifier) (s : Store) (d : StatData),
      lookupStat s n = some d → d.isDerived = false →
      (s.stats.map Prod.fst).Nodup →
      (∀ m ∈ ms, ∀ x ∈ d.modifiers, x.source ≠ m.source) →
      (ms.map (fun m => m.source)).Nodup →
      ms.foldl (fun acc2 m =>
        match addModifier acc2 n (modifierInputOfSerialized m) with
        | .ok r => r.1 | .error _ => acc2) s =
      updateStat s n
        { d with modifiers := (d.modifiers ++ ms.map internalOfSerialized) } := by
  intro ms
  induction ms with
  | nil =>
    intro s d hl hder hnd _ _
    simp only [List.map_nil, List.append_nil]
    exact (updateStat_lookup_self hl hnd).symm
  | cons m rest ih =>
    intro s d hl hder hnd hdisj hsnd
    rw [List.foldl_cons, addStep_ok (modifierInputOfSerialized m) hl hder,
      internal_of_serialized_eq m,
      replaceFirst_fresh (fun x hx => hdisj m (List.mem_cons_self m rest) x hx)]
    have hl2 : lookupStat (updateStat s n
        { d with modifiers := (d.modifiers ++ [internalOfSerialized m]) }) n =
        some { d with modifiers := (d.modifiers ++ [internalOfSerialized m]) } :=
      lookupStat_update_self s n _ (by rw [hl]; rfl)
    have hnd2 : ((updateStat s n
        { d with modifiers := (d.modifiers ++ [internalOfSerialized m]) }).stats.map
          Prod.fst).Nodup := by
      rw [updateStat_keys]
      exact hnd
    have hdisj2 : ∀ m' ∈ rest, ∀ x ∈ ({ d with modifiers :=
        (d.modifiers ++ [internalOfSerialized m]) } : StatData).modifiers,
        x.source ≠ m'.source := by
      intro m' hm' x hx
      rcases List.mem_append.mp hx with hx | hx
      · exact hdisj m' (List.mem_cons_of_mem _ hm') x hx
      · have hxm : x = internalOfSerialized m := List.mem_singleton.mp hx
        rw [hxm]
        show m.source ≠ m'.source
        rw [List.map_cons, List.nodup_cons] at hsnd
        intro he
        exact hsnd.1 (he ▸ List.mem_map_of_mem _ hm')
    have hres := ih (updateStat s n
        { d with modifiers := (d.modifiers ++ [internalOfSerialized m]) })
      { d with modifiers := (d.modifiers ++ [internalOfSerialized m]) }
      hl2 hder hnd2 hdisj2 (by
        rw [List.map_cons, List.nodup_cons] at hsnd
        exact hsnd.2)
    rw [hres, updateStat_updateStat]
    have hmods : ({ ({ d with modifiers :=
        (d.modifiers ++ [internalOfSerialized m]) } : StatData) with modifiers :=
        (({ d with modifiers := (d.modifiers ++ [internalOfSerialized m]) } :
          StatData).modifiers ++ rest.map internalOfSerialized) } : StatData) =
        { d with modifiers := (d.modifiers ++ (m :: rest).map internalOfSerialized) } := by
      show (⟨d.base, d.min, d.max,
        (d.modifiers ++ [internalOfSerialized m]) ++ rest.map internalOfSerialized,
        d.isDerived⟩ : StatData) =
        ⟨d.base, d.min, d.max,
          d.modifiers ++ (internalOfSerialized m :: rest.map internalOfSerialized),
          d.isDerived⟩
      rw [List.append_assoc, List.singleton_append]
    rw [hmods]

/-- Stripping modifiers does not change the key sequence. -/
theorem map_fst_strip (l : List (String × StatData)) :
    (l.map (fun r => (r.1, { r.2 with
      modifiers := ([] : List InternalModifier) }))).map Prod.fst =
      l.map Prod.fst := by
  rw [List.map_map]
  apply List.map_congr_left
  intro x _
  rfl

/-- Replaying the serialized modifier snapshot of a store whose entries
are non-derived, have distinct sources, and have nominal durations equal
to remaining ones, onto its base-restored (modifier-stripped) image,
reproduces the store exactly. -/
theorem restoreModifiers_aligned :
    ∀ (l : List (String × StatData)),
      (l.map Prod.fst).Nodup →
      (∀ p ∈ l, protoKeys.contains p.1 = false) →
      (∀ p ∈ l, p.2.isDerived = false ∧
        (p.2.modifiers.map (fun m => m.source)).Nodup ∧
        ∀ m ∈ p.2.modifiers, m.duration = m.remainingDuration) →
      restoreModifiers
        ⟨l.map (fun r => (r.1, { r.2 with
          modifiers := ([] : List InternalModifier) }))⟩
        ((l.filter (fun p => !p.2.isDerived && !p.2.modifiers.isEmpty)).map
          (fun p => (p.1, p.2.modifiers.map (fun m =>
            (⟨m.value, m.source, m.type, m.remainingDuration⟩ :
              SerializedModifier))))) =
      ⟨l⟩ := by
  intro l
  induction l with
  | nil => intro _ _ _; rfl
  | cons e es ih =>
    intro hnd hproto hent
    have hder : e.2.isDerived = false := (hent e (List.mem_cons_self e es)).1
    have hsrcN : (e.2.modifiers.map (fun m => m.source)).Nodup :=
      (hent e (List.mem_cons_self e es)).2.1
    have hdur : ∀ m ∈ e.2.modifiers, m.duration = m.remainingDuration :=
      (hent e (List.mem_cons_self e es)).2.2
    have hnotin : e.1 ∉ es.map Prod.fst := by
      rw [List.map_cons] at hnd
      exact (List.nodup_cons.mp hnd).1
    have hsnapkeys : ∀ q ∈ (es.filter
        (fun p => !p.2.isDerived && !p.2.modifiers.isEmpty)).map
        (fun p => (p.1, p.2.modifiers.map (fun m =>
          (⟨m.value, m.source, m.type, m.remainingDuration⟩ :
            SerializedModifier)))), q.1 ≠ e.1 := by
      intro q hq he
      rcases List.mem_map.mp hq with ⟨r, hr, hrq⟩
      have hr2 := List.mem_filter.mp hr
      exact hnotin (he ▸ hrq ▸ List.mem_map_of_mem Prod.fst hr2.1)
    have hndtail : (es.map Prod.fst).Nodup := by
      rw [List.map_cons] at hnd
      exact (List.nodup_cons.mp hnd).2
    have hprototail : ∀ p ∈ es, protoKeys.contains p.1 = false :=
      fun p hp => hproto p (List.mem_cons_of_mem _ hp)
    have henttail : ∀ p ∈ es, p.2.isDerived = false ∧
        (p.2.modifiers.map (fun m => m.source)).Nodup ∧
        ∀ m ∈ p.2.modifiers, m.duration = m.remainingDuration :=
      fun p hp => hent p (List.mem_cons_of_mem _ hp)
    rw [List.map_cons]
    by_cases hemp : e.2.modifiers.isEmpty = true
    · have hmods : e.2.modifiers = [] := by simpa using hemp
      have hstrip : ({ e.2 with
          modifiers := ([] : List InternalModifier) } : StatData) = e.2 := by
        rw [← hmods]
      rw [List.filter_cons_of_neg (by simp [hder, hemp]), hstrip,
        restoreModifiers_cons_notmem e.1 e.2 _ _ hsnapkeys,
        ih hndtail hprototail henttail]
    · rw [List.filter_cons_of_pos (by simp [hder, hemp]), List.map_cons,
        restoreModifiers_cons_eq]
      have hsingle : restoreModifiers
          ⟨(e.1, { e.2 with modifiers := ([] : List InternalModifier) }) ::
            es.map (fun r => (r.1, { r.2 with
              modifiers := ([] : List InternalModifier) }))⟩
          [(e.1, e.2.modifiers.map (fun m =>
            (⟨m.value, m.source, m.type, m.remainingDuration⟩ :
              SerializedModifier)))] =
          ⟨(e.1, e.2) :: es.map (fun r => (r.1, { r.2 with
            modifiers := ([] : List InternalModifier) }))⟩ := by
        simp only [restoreModifiers, List.foldl_cons, List.foldl_nil]
        rw [if_neg (by simpa using hproto e (List.mem_cons_self e es))]
        have hlook : lookupStat ⟨(e.1, { e.2 with
            modifiers := ([] : List InternalModifier) }) ::
            es.map (fun r => (r.1, { r.2 with
              modifiers := ([] : List InternalModifier) }))⟩ e.1 =
            some { e.2 with modifiers := ([] : List InternalModifier) } := by
          show findVal _ e.1 = _
          rw [findVal_cons, if_pos rfl]
        rw [if_pos (by rw [hlook]; rfl)]
        rw [replay_fold e.1 _ _ _ hlook hder
          (by simpa [map_fst_strip es] using hnd)
          (fun m hm x hx => absurd hx (List.not_mem_nil x))
          (by
            rw [List.map_map]
            exact hsrcN)]
        have hms : (e.2.modifiers.map (fun m =>
            (⟨m.value, m.source, m.type, m.remainingDuration⟩ :
              SerializedModifier))).map internalOfSerialized = e.2.modifiers := by
          rw [List.map_map]
          conv_rhs => rw [← List.map_id e.2.modifiers]
          apply List.map_congr_left
          intro m hm
          show (⟨m.value, m.source, m.type, m.remainingDuration,
            m.remainingDuration⟩ : InternalModifier) = m
          nth_rewrite 1 [← hdur m hm]
          rfl
        rw [hms]
        have hupd : updateStat ⟨(e.1, { e.2 with
            modifiers := ([] : List InternalModifier) }) ::
            es.map (fun r => (r.1, { r.2 with
              modifiers := ([] : List InternalModifier) }))⟩ e.1 e.2 =
            ⟨(e.1, e.2) :: es.map (fun r => (r.1, { r.2 with
              modifiers := ([] : List InternalModifier) }))⟩ := by
          simp only [updateStat, List.map_cons]
          rw [if_pos (by simp)]
          refine congrArg Store.mk (congrArg (fun t => (e.1, e.2) :: t) ?_)
          rw [List.map_map]
          apply List.map_congr_left
          intro r hr
          have hne : ¬((r.1 == e.1) = true) := by
            simp only [beq_iff_eq]
            intro hre
            exact hnotin (hre ▸ List.mem_map_of_mem Prod.fst hr)
          simp only [Function.comp]
          rw [if_neg hne]
        exact hupd
      rw [hsingle,
        restoreModifiers_cons_notmem e.1 e.2 _ _ hsnapkeys,
        ih hndtail hprototail henttail]

/-- Counterexample to C3 as stated: for definitions carrying a proto-named
stat the round-trip fails.  `constructor` starts at 10, is `set` to 15,
serializes to a version-1 snapshot carrying 15, yet reconstruction skips
the proto-named snapshot entry and yields base 10 again. -/
theorem claim_C3_counterexample :
    createStatBlock [("constructor", { base := 10 })] none =
      .ok ⟨[("constructor", ⟨10, none, none, [], false⟩)]⟩ ∧
    runOps ⟨[("constructor", ⟨10, none, none, [], false⟩)]⟩
        [Op.set "constructor" 15] =
      ⟨[("constructor", ⟨15, none, none, [], false⟩)]⟩ ∧
    toJSON ⟨[("constructor", ⟨15, none, none, [], false⟩)]⟩ =
      ⟨1, [("constructor", 15)], []⟩ ∧
    createStatBlock [("constructor", { base := 10 })]
        (some ⟨1, [("constructor", 15)], []⟩) =
      .ok ⟨[("constructor", ⟨10, none, none, [], false⟩)]⟩ ∧
    getBase ⟨[("constructor", ⟨15, none, none, [], false⟩)]⟩ "constructor" =
      some 15 ∧
    getBase ⟨[("constructor", ⟨10, none, none, [], false⟩)]⟩ "constructor" =
      some 10 ∧
    some (15 : ℚ) ≠ some (10 : ℚ) := by
  refine ⟨rfl, ?_, rfl, rfl, rfl, rfl, by norm_num⟩
  norm_num +decide [runOps, applyOp, set, lookupStat, findVal, calcEffective,
    effEntry, pipelineValue, clampValue, updateStat, captureDerived,
    derivedEvents, List.foldl]

/-- C3 (amended): round-trip through `toJSON`/`fromJSON`.  For any store
reached from proto-free definitions (a JS object, hence pairwise-distinct
names) by an arbitrary sequence of `set` and `addModifier` calls,
reconstructing from the serialized snapshot with the same definitions
succeeds and reproduces the reached store's `get` and `getBase` results
for every stat name. -/
theorem claim_C3 (defs : List (String × StatDefinition)) (S0 : Store)
    (ops : List Op) (h1 : (defs.map Prod.fst).Nodup)
    (h2 : ∀ p ∈ defs, protoKeys.contains p.1 = false)
    (h3 : createStatBlock defs none = .ok S0) :
    ∃ S', createStatBlock defs (some (toJSON (runOps S0 ops))) = .ok S' ∧
      ∀ n, get S' n = get (runOps S0 ops) n ∧
        getBase S' n = getBase (runOps S0 ops) n := by
  cases hbs : buildStats defs with
  | error e =>
    exfalso
    simp [createStatBlock, hbs, Bind.bind, Except.bind] at h3
  | ok stats0 =>
    have hS0 : S0 = ⟨stats0⟩ := by
      simp only [createStatBlock, hbs, Bind.bind, Except.bind] at h3
      exact (Except.ok.inj h3).symm
    subst hS0
    have hshape : stats0 = defs.map (fun p => (p.1, defEntry p.2)) :=
      buildFold_nodup_entries defs [] stats0 (by simpa using h1) hbs
    have hok : StoreOkFor defs (runOps ⟨stats0⟩ ops) :=
      storeOk_runOps h1 ops ⟨stats0⟩ (by rw [hshape]; exact storeOk_init defs)
    have hkeys : (runOps ⟨stats0⟩ ops).stats.map Prod.fst = defs.map Prod.fst :=
      storeOk_keys hok
    have hndS : ((runOps ⟨stats0⟩ ops).stats.map Prod.fst).Nodup := by
      rw [hkeys]
      exact h1
    have hprotoS : ∀ p ∈ (runOps ⟨stats0⟩ ops).stats,
        protoKeys.contains p.1 = false := by
      intro p hp
      have hmem : p.1 ∈ defs.map Prod.fst := by
        rw [← hkeys]
        exact List.mem_map_of_mem _ hp
      rcases List.mem_map.mp hmem with ⟨q, hq, hq1⟩
      rw [← hq1]
      exact h2 q hq
    have hents := storeOk_entries hok
    have hfilter : (runOps ⟨stats0⟩ ops).stats.filter (fun p => !p.2.isDerived) =
        (runOps ⟨stats0⟩ ops).stats := by
      apply List.filter_eq_self.mpr
      intro p hp
      simp [(hents p hp).1]
    refine ⟨runOps ⟨stats0⟩ ops, ?_, fun n => ⟨rfl, rfl⟩⟩
    simp only [createStatBlock, hbs, Bind.bind, Except.bind]
    rw [if_neg (not_not_intro
      (show (toJSON (runOps ⟨stats0⟩ ops)).version = 1 from rfl))]
    have hjs : (toJSON (runOps ⟨stats0⟩ ops)).stats =
        (runOps ⟨stats0⟩ ops).stats.map (fun r => (r.1, r.2.base)) := by
      show ((runOps ⟨stats0⟩ ops).stats.filter
        (fun p => !p.2.isDerived)).map (fun p => (p.1, p.2.base)) = _
      rw [hfilter]
    rw [hjs]
    have hrs := restoreStats_aligned hok hndS hprotoS
    rw [← hshape] at hrs
    rw [hrs]
    have hrm := restoreModifiers_aligned (runOps ⟨stats0⟩ ops).stats hndS hprotoS
      (fun p hp => hents p hp)
    rw [show (toJSON (runOps ⟨stats0⟩ ops)).modifiers =
      ((runOps ⟨stats0⟩ ops).stats.filter
        (fun p => !p.2.isDerived && !p.2.modifiers.isEmpty)).map
        (fun p => (p.1, p.2.modifiers.map (fun m =>
          (⟨m.value, m.source, m.type, m.remainingDuration⟩ :
            SerializedModifier)))) from rfl]
    rw [hrm]

/-- Closed witness for C3 (amended): the round-trip property applied to the
single-stat store `hp = 10` set to 15. -/
theorem claim_C3_witness :
    ∃ S', createStatBlock [("hp", { base := 10 })]
        (some (toJSON (runOps ⟨[("hp", ⟨10, none, none, [], false⟩)]⟩
          [Op.set "hp" 15]))) = .ok S' ∧
      ∀ n, get S' n = get (runOps ⟨[("hp", ⟨10, none, none, [], false⟩)]⟩
          [Op.set "hp" 15]) n ∧
        getBase S' n = getBase (runOps ⟨[("hp", ⟨10, none, none, [], false⟩)]⟩
          [Op.set "hp" 15]) n :=
  claim_C3 [("hp", { base := 10 })] ⟨[("hp", ⟨10, none, none, [], false⟩)]⟩
    [Op.set "hp" 15] (by decide) (by decide) rfl

/-- Counterexample to C9 as stated: the core does sanitize proto-named
keys.  A template override for `"constructor"` is ignored (the stat keeps
its default 10) while the identical override for an ordinary name applies;
a `fromJSON` snapshot base for `"constructor"` is skipped while the
identical entry for an ordinary name is restored. -/
theorem claim_C9_counterexample :
    templateCreate [("constructor", ⟨10, none, none⟩)] (some [("constructor", 15)]) =
      .ok ⟨[("constructor", ⟨10, none, none, [], false⟩)]⟩ ∧
    templateCreate [("hp", ⟨10, none, none⟩)] (some [("hp", 15)]) =
      .ok ⟨[("hp", ⟨15, none, none, [], false⟩)]⟩ ∧
    createStatBlock [("constructor", { base := 10 })]
        (some ⟨1, [("constructor", 15)], []⟩) =
      .ok ⟨[("constructor", ⟨10, none, none, [], false⟩)]⟩ ∧
    createStatBlock [("hp", { base := 10 })] (some ⟨1, [("hp", 15)], []⟩) =
      .ok ⟨[("hp", ⟨15, none, none, [], false⟩)]⟩ := by
  refine ⟨rfl, rfl, rfl, rfl⟩

/-- C9 (amended): the core itself sanitizes proto-named keys.  (a) The
template layer ignores overrides at proto-named keys: two override maps
agreeing on all non-proto names produce the same stat block; (b) the
`fromJSON` base restore skips a proto-named snapshot entry; (c) the
`fromJSON` modifier restore skips a proto-named snapshot entry; (d) hence
`createStatBlock` gives the same result whether or not a snapshot carries
proto-named stat and modifier entries. -/
theorem claim_C9 :
    (∀ (sd : List (String × TemplateStatDef)) (ov1 ov2 : List (String × ℚ)),
        (∀ n, protoKeys.contains n = false →
          lookupOverride ov1 n = lookupOverride ov2 n) →
        templateCreate sd (some ov1) = templateCreate sd (some ov2)) ∧
    (∀ (stats0 : List (String × StatData)) (snapStats : List (String × ℚ))
        (n : String) (v : ℚ), protoKeys.contains n = true →
        restoreStats stats0 ((n, v) :: snapStats) = restoreStats stats0 snapStats) ∧
    (∀ (s : Store) (snapMods : List (String × List SerializedModifier))
        (n : String) (ms : List SerializedModifier), protoKeys.contains n = true →
        restoreModifiers s ((n, ms) :: snapMods) = restoreModifiers s snapMods) ∧
    (∀ (defs : List (String × StatDefinition)) (snap : Snapshot) (n : String)
        (v : ℚ) (ms : List SerializedModifier), protoKeys.contains n = true →
        createStatBlock defs (some { snap with
            stats := (n, v) :: snap.stats,
            modifiers := (n, ms) :: snap.modifiers }) =
          createStatBlock defs (some snap)) := by
  refine ⟨?_, restoreStats_proto_cons, restoreModifiers_proto_cons, ?_⟩
  · intro sd ov1 ov2 h
    simp only [templateCreate]
    refine congrArg (fun d => createStatBlock d none) ?_
    apply List.map_congr_left
    intro p hp
    by_cases hk : protoKeys.contains p.1 = true
    · have hk' : p.1 ∈ protoKeys := by simpa using hk
      cases h1 : lookupOverride ov1 p.1 <;> cases h2 : lookupOverride ov2 p.1 <;>
        simp [hk']
    · rw [h p.1 (Bool.eq_false_iff.mpr hk)]
  · intro defs snap n v ms h
    unfold createStatBlock
    cases hb : buildStats defs with
    | error e => simp [Bind.bind, Except.bind, hb]
    | ok stats0 =>
      simp only [Bind.bind, Except.bind, hb]
      by_cases hv : snap.version = 1
      · rw [if_neg (not_not_intro hv), if_neg (not_not_intro hv)]
        rw [restoreStats_proto_cons stats0 snap.stats n v h,
            restoreModifiers_proto_cons ⟨restoreStats stats0 snap.stats⟩
              snap.modifiers n ms h]
      · rw [if_pos hv, if_pos hv]

/-- Closed witness for C9 (amended): each sanitization clause applied at a
concrete proto-named key against the empty override / snapshot. -/
theorem claim_C9_witness :
    (templateCreate [("hp", ⟨10, none, none⟩)] (some [("constructor", 15)]) =
      templateCreate [("hp", ⟨10, none, none⟩)] (some [])) ∧
    (restoreStats [("hp", ⟨10, none, none, [], false⟩)] [("__proto__", 5)] =
      restoreStats [("hp", ⟨10, none, none, [], false⟩)] []) ∧
    (restoreModifiers ⟨[("hp", ⟨10, none, none, [], false⟩)]⟩ [("prototype", [])] =
      restoreModifiers ⟨[("hp", ⟨10, none, none, [], false⟩)]⟩ []) ∧
    (createStatBlock [("hp", { base := 10 })]
        (some ⟨1, [("constructor", 5)], [("constructor", [])]⟩) =
      createStatBlock [("hp", { base := 10 })] (some ⟨1, [], []⟩)) :=
  ⟨claim_C9.1 _ _ _ (by
      intro n hn
      have hne : ("constructor" : String) ≠ n := by
        intro e
        rw [← e] at hn
        exact absurd hn (by decide)
      simp [lookupOverride, hne]),
   claim_C9.2.1 _ _ _ _ (by decide),
   claim_C9.2.2.1 _ _ _ _ (by decide),
   claim_C9.2.2.2 _ ⟨1, [], []⟩ _ _ _ (by decide)⟩

end Stats
